import Mathlib

/-!
Shallow embedding of `src/services/pdf_parser.py` (the financial-statement
metrics extraction engine) and proofs about it.

Modelling conventions:
* Python strings are `List Char`; `\d` is modelled as ASCII decimal digits
  (`Char.isDigit`), `\s` as `Char.isWhitespace`, `str.lower()` as
  `Char.toLower` per character (the keyword literals involved are ASCII or
  caseless Bengali, so this agrees with Python on all inputs the claims
  quantify over).
* Python floats are modelled as exact rationals (`ℚ`); `round(x, 2)` is
  modelled as round-half-to-even at two decimal places.
* The three summary regexes and the date regex of the source are embedded as
  abstract-syntax values (`Rx`) interpreted by a backtracking matcher with
  Python `re` semantics: leftmost search position wins, alternatives are
  tried left to right, quantifiers are greedy, and the engine backtracks
  into earlier choices when the continuation fails.  `re.IGNORECASE` is
  modelled by lowercasing the text and writing the patterns in lowercase.
* `pdfplumber.open` (the Document Extractor) is the only fallible step; its
  outcome is an `Except` value consumed by `extract_financial_metrics`.
  A `pdfplumber` page is a record carrying `extract_text()`'s result
  (`none` models Python `None`) and `extract_tables()`'s rows, whose cells
  may be `None` as in the source.
-/

/-- Substring containment, Python's `needle in hay` for strings. -/
def strContains (hay needle : List Char) : Bool :=
  match hay with
  | [] => needle = []
  | _ :: rest => List.isPrefixOf needle hay || strContains rest needle

/-- `any(k in cell for k in ks)`. -/
def containsAny (cell : List Char) (ks : List (List Char)) : Bool :=
  ks.any (fun k => strContains cell k)

/-- Lowercase a string, `str.lower()` (ASCII fragment). -/
def lowerStr (s : List Char) : List Char :=
  s.map Char.toLower

/-- String-literal convenience: the character list of a `String`. -/
def lit (s : String) : List Char :=
  s.data

/-- Python `str.strip()`: remove leading and trailing whitespace. -/
def stripWs (s : List Char) : List Char :=
  ((s.dropWhile Char.isWhitespace).reverse.dropWhile Char.isWhitespace).reverse

/-- `" ".join(row)`. -/
def joinSpace (row : List (List Char)) : List Char :=
  List.intercalate [' '] row

/-- Length of the maximal prefix of `s` whose characters satisfy `p`. -/
def leadCount (p : Char → Bool) : List Char → Nat
  | [] => 0
  | c :: rest => if p c then leadCount p rest + 1 else 0

/-- Regex abstract syntax, covering exactly the constructs used by the four
patterns in the source: literals/char classes, concatenation, ordered
alternation, greedy `?`, greedy char-class quantifiers `*`, `+`, `{lo,hi}`,
and one capture group. -/
inductive Rx where
  | eps : Rx
  | cls (p : Char → Bool) : Rx
  | cat (a b : Rx) : Rx
  | alt (a b : Rx) : Rx
  | quest (a : Rx) : Rx
  | star (p : Char → Bool) : Rx
  | plus (p : Char → Bool) : Rx
  | rep (p : Char → Bool) (lo hi : Nat) : Rx
  | grp (a : Rx) : Rx

/-- Greedy backtracking over a character-class quantifier: the suffixes of
`s` after consuming `n`, `n-1`, …, `lo` characters, in that (greedy)
order; empty below `lo`. -/
def tryCounts (s : List Char) (lo : Nat) : Nat → List (List Char)
  | 0 => if 0 < lo then [] else [s]
  | m + 1 => if m + 1 < lo then [] else s.drop (m + 1) :: tryCounts s lo m

/-- Backtracking matcher.  `mtchAll r s cap` is the list of every way `r`
can match a prefix of `s` (with incoming group-1 capture `cap`), each as
(remaining suffix, capture), ordered exactly as Python's backtracking
explores them: alternatives left to right, quantifiers greedy. -/
def mtchAll : Rx → List Char → Option (List Char) →
    List (List Char × Option (List Char))
  | .eps, s, c => [(s, c)]
  | .cls p, s, c =>
    match s with
    | [] => []
    | x :: rest => if p x then [(rest, c)] else []
  | .cat a b, s, c => (mtchAll a s c).flatMap (fun sc => mtchAll b sc.1 sc.2)
  | .alt a b, s, c => mtchAll a s c ++ mtchAll b s c
  | .quest a, s, c => mtchAll a s c ++ [(s, c)]
  | .star p, s, c => (tryCounts s 0 (leadCount p s)).map (fun r => (r, c))
  | .plus p, s, c =>
    match s with
    | [] => []
    | x :: rest =>
      if p x then (tryCounts rest 0 (leadCount p rest)).map (fun r => (r, c)) else []
  | .rep p lo hi, s, c => (tryCounts s lo (min hi (leadCount p s))).map (fun r => (r, c))
  | .grp a, s, c =>
    (mtchAll a s c).map (fun sc => (sc.1, some (s.take (s.length - sc.1.length))))

/-- `re.search`: try each start position left to right; on the first
position where the pattern matches, return the group-1 capture of the
first match in backtracking order (`none` if the group did not
participate). -/
def rxSearchFrom (r : Rx) : List Char → Option (Option (List Char))
  | [] => ((mtchAll r [] none).head?).map (fun sc => sc.2)
  | x :: rest =>
    match (mtchAll r (x :: rest) none).head? with
    | some sc => some sc.2
    | none => rxSearchFrom r rest

/-- Whether `re.search` finds a match anywhere in `s`. -/
def rxHasMatch (r : Rx) (s : List Char) : Bool :=
  (rxSearchFrom r s).isSome

/-- The character list of a literal, as a regex. -/
def rxStr (s : String) : Rx :=
  s.data.foldr (fun ch acc => Rx.cat (Rx.cls (fun c => c == ch)) acc) Rx.eps

/-- Digit value of `"0"`–`"9"` characters folded left, Python `int`-style. -/
def digitsToNat (ds : List Char) : Nat :=
  ds.foldl (fun n c => n * 10 + (c.toNat - '0'.toNat)) 0

/-!
## Rational arithmetic, kernel-style

The embedding models Python floats as exact rationals.  The library's `ℚ`
operations are irreducible to definitional unfolding, so concrete runs of
the engine could not be evaluated inside proofs through them.  We therefore
build the handful of operations the engine needs directly on the `Rat`
structure (they reduce on literals) and prove once, below, that each agrees
with the corresponding library operation — those bridge lemmas are what the
abstract theorems use.
-/

/-- Numerator of the reduced fraction `n / d` (`d` in lowest terms with it). -/
def qNum (n : Int) (d : Nat) : Int :=
  if 0 ≤ n then ((n.natAbs / n.natAbs.gcd d : Nat) : ℤ)
  else -((n.natAbs / n.natAbs.gcd d : Nat) : ℤ)

theorem qMk_den_nz {n : Int} {d : Nat} (hd : d ≠ 0) : d / n.natAbs.gcd d ≠ 0 := by
  have hgd : n.natAbs.gcd d ∣ d := Nat.gcd_dvd_right _ _
  have hg0 : 0 < n.natAbs.gcd d := Nat.gcd_pos_of_pos_right _ (Nat.pos_of_ne_zero hd)
  exact Nat.pos_iff_ne_zero.mp
    (Nat.div_pos (Nat.le_of_dvd (Nat.pos_of_ne_zero hd) hgd) hg0)

theorem qMk_red (n : Int) {d : Nat} (hd : d ≠ 0) :
    (qNum n d).natAbs.Coprime (d / n.natAbs.gcd d) := by
  have hco := Nat.coprime_div_gcd_div_gcd
    (m := n.natAbs) (n := d) (Nat.gcd_pos_of_pos_right _ (Nat.pos_of_ne_zero hd))
  unfold qNum
  split
  · rwa [show ∀ y : Nat, ((y : ℕ) : ℤ).natAbs = y from fun y => Int.natAbs_ofNat y]
  · rw [Int.natAbs_neg]
    rwa [show ∀ y : Nat, ((y : ℕ) : ℤ).natAbs = y from fun y => Int.natAbs_ofNat y]

/-- The rational `n / d`, built in lowest terms on the `Rat` structure. -/
def qMk (n : Int) (d : Nat) : ℚ :=
  if hd : d = 0 then 0
  else Rat.mk' (qNum n d) (d / n.natAbs.gcd d) (qMk_den_nz hd) (qMk_red n hd)

/-- Structure-level addition; `qAdd_eq` below shows it is `+`. -/
def qAdd (a b : ℚ) : ℚ := qMk (a.num * b.den + b.num * a.den) (a.den * b.den)

/-- Structure-level subtraction; `qSub_eq` below shows it is `-`. -/
def qSub (a b : ℚ) : ℚ := qMk (a.num * b.den - b.num * a.den) (a.den * b.den)

/-- Structure-level multiplication by a natural; `qScale_eq` below shows it
is `k * a`. -/
def qScale (k : Nat) (a : ℚ) : ℚ := qMk (k * a.num) a.den

/-- Structure-level division by a natural; `qDivNat_eq` below shows it is
`a / k`. -/
def qDivNat (a : ℚ) (k : Nat) : ℚ := qMk a.num (a.den * k)

/-- Structure-level floor; `qFloor_eq` below shows it is `⌊a⌋`. -/
def qFloor (a : ℚ) : ℤ := a.num / a.den

/-- Python `sum` over a list of rationals (left fold from 0). -/
def qSum (l : List ℚ) : ℚ := l.foldl qAdd 0

theorem qMk_eq_div (n : Int) (d : Nat) : qMk n d = (n : ℚ) / (d : ℚ) := by
  unfold qMk
  split
  · next hd => subst hd; simp
  · next hd =>
    rw [Rat.mk'_eq_divInt]
    have hg0 : 0 < n.natAbs.gcd d := Nat.gcd_pos_of_pos_right _ (Nat.pos_of_ne_zero hd)
    have hgz : ((n.natAbs.gcd d : ℕ) : ℤ) ≠ 0 :=
      Int.natCast_ne_zero.mpr (Nat.pos_iff_ne_zero.mp hg0)
    have hmg : ((n.natAbs.gcd d : ℕ) : ℤ) * ((n.natAbs / n.natAbs.gcd d : Nat) : ℤ) =
        (n.natAbs : ℤ) := by
      rw [← Int.natCast_mul, Nat.mul_div_cancel' (Nat.gcd_dvd_left _ _)]
    have hdg : ((n.natAbs.gcd d : ℕ) : ℤ) * ((d / n.natAbs.gcd d : Nat) : ℤ) = (d : ℤ) := by
      rw [← Int.natCast_mul, Nat.mul_div_cancel' (Nat.gcd_dvd_right _ _)]
    have hml := Rat.divInt_mul_left
      (n := ((n.natAbs / n.natAbs.gcd d : Nat) : ℤ))
      (d := ((d / n.natAbs.gcd d : Nat) : ℤ)) hgz
    rw [hmg, hdg] at hml
    unfold qNum
    split
    · next hn =>
      have hnn : ((n.natAbs : ℕ) : ℤ) = n := by omega
      rw [← hml, hnn, Rat.divInt_eq_div]
      simp
    · next hn =>
      have hnn : ((n.natAbs : ℕ) : ℤ) = -n := by omega
      rw [← Rat.neg_divInt, ← hml, hnn, ← Rat.neg_divInt, neg_neg, Rat.divInt_eq_div]
      simp

theorem num_mul_den_inv (a : ℚ) : (a.num : ℚ) = a * (a.den : ℚ) := by
  have hden : ((a.den : ℚ)) ≠ 0 := Nat.cast_ne_zero.mpr a.den_nz
  calc (a.num : ℚ) = (a.num : ℚ) / (a.den : ℚ) * (a.den : ℚ) :=
        (div_mul_cancel₀ _ hden).symm
  _ = a * (a.den : ℚ) := by rw [Rat.num_div_den]

theorem qAdd_eq (a b : ℚ) : qAdd a b = a + b := by
  have ha : ((a.den : ℚ)) ≠ 0 := Nat.cast_ne_zero.mpr a.den_nz
  have hb : ((b.den : ℚ)) ≠ 0 := Nat.cast_ne_zero.mpr b.den_nz
  rw [qAdd, qMk_eq_div]
  push_cast
  field_simp
  rw [num_mul_den_inv a, num_mul_den_inv b]
  ring

theorem qSub_eq (a b : ℚ) : qSub a b = a - b := by
  have ha : ((a.den : ℚ)) ≠ 0 := Nat.cast_ne_zero.mpr a.den_nz
  have hb : ((b.den : ℚ)) ≠ 0 := Nat.cast_ne_zero.mpr b.den_nz
  rw [qSub, qMk_eq_div]
  push_cast
  field_simp
  rw [num_mul_den_inv a, num_mul_den_inv b]
  ring

theorem qScale_eq (k : Nat) (a : ℚ) : qScale k a = (k : ℚ) * a := by
  have ha : ((a.den : ℚ)) ≠ 0 := Nat.cast_ne_zero.mpr a.den_nz
  rw [qScale, qMk_eq_div]
  push_cast
  field_simp
  rw [num_mul_den_inv a]
  ring

theorem qDivNat_eq (a : ℚ) (k : Nat) : qDivNat a k = a / (k : ℚ) := by
  rcases eq_or_ne k 0 with hk | hk
  · subst hk
    rw [qDivNat, qMk_eq_div]
    simp
  · have ha : ((a.den : ℚ)) ≠ 0 := Nat.cast_ne_zero.mpr a.den_nz
    have hkq : ((k : ℚ)) ≠ 0 := Nat.cast_ne_zero.mpr hk
    rw [qDivNat, qMk_eq_div]
    push_cast
    field_simp
    rw [num_mul_den_inv a]
    ring

theorem qFloor_eq (a : ℚ) : qFloor a = ⌊a⌋ := (Rat.floor_def).symm

theorem qSum_go (l : List ℚ) : ∀ acc : ℚ, l.foldl qAdd acc = acc + l.sum := by
  induction l with
  | nil => intro acc; simp
  | cons x xs ih =>
    intro acc
    simp only [List.foldl_cons, List.sum_cons, ih, qAdd_eq]
    ring

theorem qSum_eq (l : List ℚ) : qSum l = l.sum := by
  rw [qSum, qSum_go]
  simp

/-- Python `float(clean)` on a cleaned literal: digits with at most one
interior dot (the caller guarantees this shape), so `"12.34"` parses as
`12 + 34/100`. -/
def floatOfClean (clean : List Char) : ℚ :=
  let ip := clean.takeWhile (fun c => !(c == '.'))
  match clean.dropWhile (fun c => !(c == '.')) with
  | [] => qMk (digitsToNat ip) 1
  | _ :: fp => qAdd (qMk (digitsToNat ip) 1) (qMk (digitsToNat fp) (10 ^ fp.length))

/-- `_parse_val` from the source: empty/falsy input is 0.0; commas and
spaces are removed, then every character that is not a digit or a dot;
more than one dot gives 0.0; a trailing dot is trimmed; an empty remainder
gives 0.0; otherwise the remainder parses as a number. -/
def parseVal (val_str : List Char) : ℚ :=
  if val_str = [] then 0
  else
    let noCommaSpace := (val_str.filter (fun c => !(c == ','))).filter (fun c => !(c == ' '))
    let clean := noCommaSpace.filter (fun c => c.isDigit || c == '.')
    if 1 < clean.count '.' then 0
    else
      let clean2 := if clean.getLast? = some '.' then clean.dropLast else clean
      if clean2 = [] then 0 else floatOfClean clean2

/-! ## The four regex patterns of the source -/

/-- `\s` as a char class. -/
def isWsC (c : Char) : Bool := c.isWhitespace

/-- `\d` as a char class (ASCII fragment). -/
def isDigC (c : Char) : Bool := c.isDigit

/-- `[:\s]` as a char class. -/
def isColonWs (c : Char) : Bool := c == ':' || c.isWhitespace

/-- `[\d,]` as a char class. -/
def isDigComma (c : Char) : Bool := c.isDigit || c == ','

/-- `[A-Z]` under `re.IGNORECASE`, on lowercased text. -/
def isAsciiLowerC (c : Char) : Bool := 97 ≤ c.toNat && c.toNat ≤ 122

/-- The date-separator char class (dash, slash or dot). -/
def isDateSep (c : Char) : Bool := c == '-' || c == '/' || c == '.'

/-- Literal words joined by `\s+`, e.g. `Total\s+Credit`. -/
def rxWords : List String → Rx
  | [] => Rx.eps
  | [w] => rxStr w
  | w :: rest => Rx.cat (rxStr w) (Rx.cat (Rx.plus isWsC) (rxWords rest))

/-- Ordered alternation `r1|r2|…`. -/
def rxAlts : List Rx → Rx
  | [] => Rx.eps
  | [r] => r
  | r :: rest => Rx.alt r (rxAlts rest)

/-- `U\.?S\.?D\.?` (lowercased). -/
def usdRx : Rx :=
  Rx.cat (rxStr "u") (Rx.cat (Rx.quest (rxStr "."))
    (Rx.cat (rxStr "s") (Rx.cat (Rx.quest (rxStr "."))
      (Rx.cat (rxStr "d") (Rx.quest (rxStr "."))))))

/-- `currency_code_pattern = (?:[A-Z]{2,3}|৳|\$|Rs\.?|U\.?S\.?D\.?)?\s*`
(lowercased). -/
def currencyRx : Rx :=
  Rx.cat
    (Rx.quest (rxAlts
      [Rx.rep isAsciiLowerC 2 3, rxStr "৳", rxStr "$",
       Rx.cat (rxStr "rs") (Rx.quest (rxStr ".")), usdRx]))
    (Rx.star isWsC)

/-- The capture group `([\d,]+\.?\d*)`. -/
def numGroupRx : Rx :=
  Rx.grp (Rx.cat (Rx.plus isDigComma)
    (Rx.cat (Rx.quest (rxStr ".")) (Rx.star isDigC)))

/-- `(?:K1|K2|…)\s*[:\s]*{currency_code_pattern}([\d,]+\.?\d*)`. -/
def summaryRx (keys : List (List String)) : Rx :=
  Rx.cat (rxAlts (keys.map rxWords))
    (Rx.cat (Rx.star isWsC) (Rx.cat (Rx.star isColonWs)
      (Rx.cat currencyRx numGroupRx)))

/-- `credit_regex` from the source. -/
def credit_regex : Rx :=
  summaryRx [["total", "credit"], ["total", "deposit"], ["cash", "in"], ["total", "in"]]

/-- `debit_regex` from the source. -/
def debit_regex : Rx :=
  summaryRx [["total", "debit"], ["total", "withdrawal"], ["cash", "out"],
    ["total", "out"], ["total", "fee"]]

/-- `balance_regex` from the source. -/
def balance_regex : Rx :=
  summaryRx [["closing", "balance"], ["available", "balance"], ["balance", "as", "of"]]

/-- `date_pattern`: 1–4 digits, a separator, 1–2 digits, a separator,
2–4 digits. -/
def date_pattern : Rx :=
  Rx.cat (Rx.rep isDigC 1 4) (Rx.cat (Rx.cls isDateSep)
    (Rx.cat (Rx.rep isDigC 1 2) (Rx.cat (Rx.cls isDateSep) (Rx.rep isDigC 2 4))))

/-- `_find_by_regex` from the source: `re.search` with `IGNORECASE`
(modelled by lowercasing); on a match, `_parse_val(match.group(1))`;
otherwise `None`. -/
def findByRegex (r : Rx) (text : List Char) : Option ℚ :=
  match rxSearchFrom r (lowerStr text) with
  | some c => some (parseVal (c.getD []))
  | none => none

/-- `date_pattern.search(row_str)` (no `IGNORECASE` flag in the source;
the pattern is letterless so this does not matter). -/
def dateSearch (s : List Char) : Bool := rxHasMatch date_pattern s

/-! ## Rounding -/

/-- Python `round` to an integer: round-half-to-even. -/
def roundHalfEven (q : ℚ) : ℤ :=
  let f := qFloor q
  if qSub q (qMk f 1) < qMk 1 2 then f
  else if qMk 1 2 < qSub q (qMk f 1) then f + 1
  else if f % 2 = 0 then f else f + 1

/-- Python `round(x, 2)`. -/
def round2 (q : ℚ) : ℚ := qMk (roundHalfEven (qScale 100 q)) 100

/-! ## The document extractor boundary and row collection -/

/-- One `pdfplumber` page as consumed by the source: `extract_text()`
(possibly `None`) and `extract_tables()` (tables of rows of possibly-`None`
cells). -/
structure Page where
  text : Option (List Char)
  tables : List (List (List (Option (List Char))))

/-- `all_text`: each page's `extract_text() or ""` concatenated with `"\n"`. -/
def collectText (pages : List Page) : List Char :=
  pages.foldl (fun acc p => acc ++ p.text.getD [] ++ ['\n']) []

/-- `str(cell).strip() if cell else ""`. -/
def cleanCell (c : Option (List Char)) : List Char :=
  match c with
  | some s => if s = [] then [] else stripWs s
  | none => []

/-- `all_rows`: every cleaned table row that has at least one nonempty cell,
in page/table/row order. -/
def collectRows (pages : List Page) : List (List (List Char)) :=
  pages.foldl (fun acc p =>
    p.tables.foldl (fun acc2 table =>
      table.foldl (fun acc3 row =>
        let clean_row := row.map cleanCell
        if clean_row.any (fun c => c ≠ []) then acc3 ++ [clean_row] else acc3)
        acc2) acc) []

/-! ## Phase A: column role inference -/

/-- The five column-index slots; `none` models the `-1` sentinel. -/
structure ColState where
  credit_idx : Option Nat
  debit_idx : Option Nat
  balance_idx : Option Nat
  amount_idx : Option Nat
  type_idx : Option Nat
deriving DecidableEq, Repr

/-- All slots unassigned. -/
def initCols : ColState := ⟨none, none, none, none, none⟩

def balanceKws : List (List Char) := [lit "balance", lit "available", lit "স্থিতি"]

def amountKws : List (List Char) := [lit "amount", lit "transaction amount", lit "পরিমাণ"]

def creditColKws : List (List Char) := [lit "credit", lit "deposit", lit "received", lit "জমা"]

def debitColKws : List (List Char) := [lit "debit", lit "withdrawal", lit "out", lit "payment", lit "খরচ"]

def typeColKws : List (List Char) := [lit "status", lit "type", lit "description", lit "particulars"]

def typeTokenKws : List (List Char) := [lit "credit", lit "debit", lit "received", lit "payment"]

/-- `any(k == cell or k in cell for k in ks)`. -/
def eqOrContains (cell : List Char) (ks : List (List Char)) : Bool :=
  ks.any (fun k => k == cell || strContains cell k)

/-- The `elif` chain of the header scan, on one lowercased cell at column
`j`: priority balance > amount > credit > debit > type, each slot written
only while unassigned; the type slot additionally requires a
credit/debit-indicating token in the cell. -/
def scanCell (st : ColState) (j : Nat) (cell : List Char) : ColState :=
  if st.balance_idx = none ∧ containsAny cell balanceKws then
    { st with balance_idx := some j }
  else if st.amount_idx = none ∧ containsAny cell amountKws then
    { st with amount_idx := some j }
  else if st.credit_idx = none ∧ eqOrContains cell creditColKws then
    { st with credit_idx := some j }
  else if st.debit_idx = none ∧ eqOrContains cell debitColKws then
    { st with debit_idx := some j }
  else if st.type_idx = none ∧ containsAny cell typeColKws then
    if containsAny cell typeTokenKws then { st with type_idx := some j } else st
  else st

/-- Fold `scanCell` over an indexed cell list. -/
def scanCells (st : ColState) : List (Nat × List Char) → ColState
  | [] => st
  | (j, cell) :: rest => scanCells (scanCell st j cell) rest

/-- `for j, cell in enumerate([c.lower() for c in row])`. -/
def scanRow (st : ColState) (row : List (List Char)) : ColState :=
  scanCells st (row.map lowerStr).enum

/-- Phase A over `all_rows[:20]`. -/
def phaseA (rows : List (List (List Char))) : ColState :=
  (rows.take 20).foldl scanRow initCols

/-! ## Phase B: date-anchored row processing -/

/-- The running accumulators of the table heuristics. -/
structure Accum where
  total_credit : ℚ
  total_debit : ℚ
  balances : List ℚ
deriving DecidableEq, Repr

/-- `re.sub(r'[^\d]', '', cell)` length: the raw digit count of a cell. -/
def digitCount (cell : List Char) : Nat := (cell.filter Char.isDigit).length

/-- `row[i]` on a cleaned row (total; all call sites are bounds-checked as
in the source). -/
def getCell (row : List (List Char)) (i : Nat) : List Char := row.getD i []

/-- `row_vals`: the numeric candidates of a row — cells whose parsed value
is strictly positive and whose raw digit count is at most 11, with their
column indices, in column order. -/
def rowValsAux : Nat → List (List Char) → List (Nat × ℚ)
  | _, [] => []
  | i, cell :: rest =>
    let v := parseVal cell
    if 0 < v ∧ digitCount cell ≤ 11 then (i, v) :: rowValsAux (i + 1) rest
    else rowValsAux (i + 1) rest

/-- `row_vals` starting at column 0. -/
def rowVals (row : List (List Char)) : List (Nat × ℚ) := rowValsAux 0 row

def typeGenericKws : List (List Char) :=
  [lit "credit", lit "received", lit "in", lit "deposit", lit "successful"]

def typeCreditKws : List (List Char) := [lit "received", lit "cash in", lit "deposit"]

def typeDebitKws : List (List Char) :=
  [lit "payment", lit "sent", lit "cash out", lit "withdraw"]

/-- The type/amount classification branch of the source, reading the
lowercased type cell `t = row[type_idx].lower()` and the parsed amount
`v = _parse_val(row[amount_idx])`. -/
def typeAmountBranch (acc : Accum) (row : List (List Char)) (ti ai : Nat) : Accum :=
  if containsAny (lowerStr (getCell row ti)) typeGenericKws then
    if containsAny (lowerStr (getCell row ti)) typeCreditKws then
      { acc with total_credit := qAdd acc.total_credit (parseVal (getCell row ai)) }
    else if containsAny (lowerStr (getCell row ti)) typeDebitKws then
      { acc with total_debit := qAdd acc.total_debit (parseVal (getCell row ai)) }
    else acc
  else acc

/-- The credit-column half of the explicit-column branch (`if v:` is
`v ≠ 0`). -/
def creditColStep (cols : ColState) (acc : Accum) (row : List (List Char)) : Accum :=
  match cols.credit_idx with
  | some ci =>
    if ci < row.length then
      if parseVal (getCell row ci) ≠ 0 then
        { acc with total_credit := qAdd acc.total_credit (parseVal (getCell row ci)) }
      else acc
    else acc
  | none => acc

/-- The debit-column half of the explicit-column branch. -/
def debitColStep (cols : ColState) (acc : Accum) (row : List (List Char)) : Accum :=
  match cols.debit_idx with
  | some di =>
    if di < row.length then
      if parseVal (getCell row di) ≠ 0 then
        { acc with total_debit := qAdd acc.total_debit (parseVal (getCell row di)) }
      else acc
    else acc
  | none => acc

/-- The explicit credit/debit column branch of the source: the two
independent column reads in sequence. -/
def creditDebitBranch (cols : ColState) (acc : Accum) (row : List (List Char)) : Accum :=
  debitColStep cols (creditColStep cols acc row) row

/-- `balances.append(row_vals[-1][1])` guarded by `elif row_vals:`. -/
def balanceProxy (acc : Accum) (rv : List (Nat × ℚ)) : Accum :=
  match rv.getLast? with
  | some iv => { acc with balances := acc.balances ++ [iv.2] }
  | none => acc

/-- Balance capture: an in-range balance column appends its parsed value
when nonzero; otherwise the last numeric candidate's value is the balance
proxy. -/
def balanceCapture (cols : ColState) (acc : Accum) (row : List (List Char))
    (rv : List (Nat × ℚ)) : Accum :=
  match cols.balance_idx with
  | some bi =>
    if bi < row.length then
      if parseVal (getCell row bi) ≠ 0 then
        { acc with balances := acc.balances ++ [parseVal (getCell row bi)] }
      else acc
    else balanceProxy acc rv
  | none => balanceProxy acc rv

/-- One iteration of the Phase-B row loop. -/
def processRow (cols : ColState) (acc : Accum) (row : List (List Char)) : Accum :=
  if ¬ dateSearch (joinSpace row) then acc
  else
    let rv := rowVals row
    if rv = [] then acc
    else
      let acc1 :=
        match cols.type_idx, cols.amount_idx with
        | some ti, some ai =>
          if ai < row.length ∧ ti < row.length then typeAmountBranch acc row ti ai
          else creditDebitBranch cols acc row
        | some _, none => creditDebitBranch cols acc row
        | none, _ => creditDebitBranch cols acc row
      balanceCapture cols acc1 row rv

/-- The full table heuristics: Phase A then Phase B over `all_rows`. -/
def tableAccum (rows : List (List (List Char))) : Accum :=
  rows.foldl (processRow (phaseA rows)) ⟨0, 0, []⟩

/-! ## The pipeline -/

/-- `summary_credit` for a page list. -/
def summaryCredit (pages : List Page) : Option ℚ :=
  findByRegex credit_regex (collectText pages)

/-- `summary_debit` for a page list. -/
def summaryDebit (pages : List Page) : Option ℚ :=
  findByRegex debit_regex (collectText pages)

/-- `summary_balance` for a page list. -/
def summaryBalance (pages : List Page) : Option ℚ :=
  findByRegex balance_regex (collectText pages)

/-- The body of `extract_financial_metrics` inside the `try` block:
summary extraction, the early return when both summary credit and debit
are present, otherwise the table fallback and the final combination. -/
def extractCore (pages : List Page) : ℚ × ℚ × ℚ :=
  let summary_credit := summaryCredit pages
  let summary_debit := summaryDebit pages
  let summary_balance := summaryBalance pages
  if summary_credit.isSome ∧ summary_debit.isSome then
    (round2 (summary_credit.getD 0), round2 (summary_debit.getD 0),
      round2 (summary_balance.getD 0))
  else
    let all_rows := collectRows pages
    let acc := tableAccum all_rows
    let final_credit := summary_credit.getD acc.total_credit
    let final_debit := summary_debit.getD acc.total_debit
    let avg_balance :=
      if acc.balances ≠ [] then qDivNat (qSum acc.balances) acc.balances.length
      else summary_balance.getD 0
    (round2 final_credit, round2 final_debit, round2 avg_balance)

/-- `extract_financial_metrics`: the document extractor's outcome is an
`Except`; the `except` clause converts any failure into `(0.0, 0.0, 0.0)`. -/
def extract_financial_metrics : Except (List Char) (List Page) → ℚ × ℚ × ℚ
  | .error _ => (0, 0, 0)
  | .ok pages => extractCore pages

/-! ## Concrete documents used by counterexamples and witnesses -/

/-- A statement whose page text carries both summary lines (no balance
line) and whose table has a recognisable balance column. -/
def docSummaryBoth : List Page :=
  [{ text := some (lit "Total Credit: UGX 5,000,000\nTotal Debit: UGX 3,200,000"),
     tables := [[
       [some (lit "Date"), some (lit "Description"), some (lit "Balance")],
       [some (lit "01/01/2024"), some (lit "x"), some (lit "100000")],
       [some (lit "02/01/2024"), some (lit "y"), some (lit "150000")],
       [some (lit "03/01/2024"), some (lit "z"), some (lit "200000")]]] }]

/-- A statement with no summary text, a credit column, and a date-anchored
row whose credit cell is a 12-digit token. -/
def docBigDigits : List Page :=
  [{ text := none,
     tables := [[
       [some (lit "Date"), some (lit "Credit")],
       [some (lit "01/02/2023"), some (lit "123456789012")]]] }]

/-- A statement with no summary text, identified credit/debit/type/amount
columns, and a date-anchored row whose type cell is exactly `payment`. -/
def docTypePayment : List Page :=
  [{ text := none,
     tables := [[
       [some (lit "Credit"), some (lit "Debit"), some (lit "Status (payment)"),
        some (lit "Amount")],
       [some (lit "01/02/2023"), some (lit ""), some (lit "payment"), some (lit "500")]]] }]

/-! ## Helper lemmas: non-negativity of parsed values -/

theorem qMk_nonneg {n : Int} (d : Nat) (h : 0 ≤ n) : 0 ≤ qMk n d := by
  rw [qMk_eq_div]
  exact div_nonneg (by exact_mod_cast h) (Nat.cast_nonneg d)

theorem floatOfClean_nonneg (clean : List Char) : 0 ≤ floatOfClean clean := by
  unfold floatOfClean
  split
  · exact qMk_nonneg _ (Int.natCast_nonneg _)
  · rw [qAdd_eq]
    exact add_nonneg (qMk_nonneg _ (Int.natCast_nonneg _))
      (qMk_nonneg _ (Int.natCast_nonneg _))

theorem parseVal_nonneg (s : List Char) : 0 ≤ parseVal s := by
  unfold parseVal
  refine ite_nonneg (le_refl 0) ?_
  refine ite_nonneg (le_refl 0) ?_
  exact ite_nonneg (le_refl 0) (floatOfClean_nonneg _)

theorem findByRegex_nonneg {r : Rx} {text : List Char} {q : ℚ}
    (h : findByRegex r text = some q) : 0 ≤ q := by
  unfold findByRegex at h
  split at h
  · cases h
    exact parseVal_nonneg _
  · cases h

/-! ## Helper lemmas: rounding -/

theorem roundHalfEven_nonneg {q : ℚ} (h : 0 ≤ q) : 0 ≤ roundHalfEven q := by
  have hf : 0 ≤ qFloor q := by
    rw [qFloor_eq]
    exact Int.floor_nonneg.mpr h
  unfold roundHalfEven
  dsimp only
  split
  · exact hf
  · split
    · omega
    · split
      · exact hf
      · omega

theorem round2_nonneg {q : ℚ} (h : 0 ≤ q) : 0 ≤ round2 q := by
  unfold round2
  refine qMk_nonneg _ (roundHalfEven_nonneg ?_)
  rw [qScale_eq]
  positivity

theorem round2_cents (q : ℚ) : ∃ k : ℤ, round2 q = (k : ℚ) / 100 := by
  refine ⟨roundHalfEven (qScale 100 q), ?_⟩
  rw [round2, qMk_eq_div]
  norm_num

/-! ## Helper lemmas: the Phase-B row loop -/

theorem processRow_no_date {cols : ColState} {acc : Accum} {row : List (List Char)}
    (h : dateSearch (joinSpace row) = false) : processRow cols acc row = acc := by
  unfold processRow
  rw [h]
  simp

theorem processRow_no_candidates {cols : ColState} {acc : Accum}
    {row : List (List Char)} (h : rowVals row = []) : processRow cols acc row = acc := by
  unfold processRow
  split
  · rfl
  · simp [h]

/-- Every numeric candidate records a strictly positive value of a cell
with at most 11 raw digits, at its true column index. -/
theorem rowValsAux_mem {i : Nat} {v : ℚ} :
    ∀ (cells : List (List Char)) (k : Nat), (i, v) ∈ rowValsAux k cells →
      k ≤ i ∧ i - k < cells.length ∧
      v = parseVal (cells.getD (i - k) []) ∧ 0 < v ∧
      digitCount (cells.getD (i - k) []) ≤ 11 := by
  intro cells
  induction cells with
  | nil => intro k h; cases h
  | cons cell rest ih =>
    intro k h
    simp only [rowValsAux] at h
    by_cases hc : 0 < parseVal cell ∧ digitCount cell ≤ 11
    · rw [if_pos hc] at h
      rcases List.mem_cons.mp h with h1 | h1
      · injection h1 with hi hv
        subst hi
        subst hv
        refine ⟨Nat.le_refl _, by simp, by simp, hc.1, by simpa using hc.2⟩
      · obtain ⟨h1', h2', h3', h4', h5'⟩ := ih (k + 1) h1
        refine ⟨by omega, by simpa using by omega, ?_, h4', ?_⟩
        · rw [show i - k = (i - (k + 1)) + 1 by omega]
          simpa using h3'
        · rw [show i - k = (i - (k + 1)) + 1 by omega]
          simpa using h5'
    · rw [if_neg hc] at h
      obtain ⟨h1', h2', h3', h4', h5'⟩ := ih (k + 1) h
      refine ⟨by omega, by simpa using by omega, ?_, h4', ?_⟩
      · rw [show i - k = (i - (k + 1)) + 1 by omega]
        simpa using h3'
      · rw [show i - k = (i - (k + 1)) + 1 by omega]
        simpa using h5'

theorem rowVals_mem {row : List (List Char)} {i : Nat} {v : ℚ}
    (h : (i, v) ∈ rowVals row) :
    v = parseVal (getCell row i) ∧ 0 < v ∧ digitCount (getCell row i) ≤ 11 := by
  have := rowValsAux_mem row 0 h
  simpa [getCell] using this.2.2

/-! ## The Value Normalizer as the spec words it -/

/-- The Value Normalizer as §4.2 of the spec words it (a second definition,
for comparison with `parseVal` from the source): strip every character that
is not a decimal digit or a dot; more than one dot gives 0.0; a trailing
dot is trimmed; an empty remainder gives 0.0; otherwise parse. -/
def specNormalize (s : List Char) : ℚ :=
  let kept := s.filter (fun c => c.isDigit || c == '.')
  if 1 < kept.count '.' then 0
  else
    let kept2 := if kept.getLast? = some '.' then kept.dropLast else kept
    if kept2 = [] then 0 else floatOfClean kept2

/-- The source's comma/space pre-removal is subsumed by its digit-or-dot
filter. -/
theorem filter_clean (s : List Char) :
    ((s.filter (fun c => !(c == ','))).filter (fun c => !(c == ' '))).filter
        (fun c => c.isDigit || c == '.') =
      s.filter (fun c => c.isDigit || c == '.') := by
  induction s with
  | nil => rfl
  | cons c cs ih =>
    by_cases h1 : c = ','
    · subst h1
      simpa using ih
    · by_cases h2 : c = ' '
      · subst h2
        simpa using ih
      · have e1 : (!(c == ',')) = true := by simp [h1]
        have e2 : (!(c == ' ')) = true := by simp [h2]
        simp only [List.filter_cons, e1, e2, if_true]
        cases h3 : (c.isDigit || c == '.')
        · simp only [List.filter_cons, h3, Bool.false_eq_true, if_false]
          exact ih
        · simp only [List.filter_cons, h3, if_true]
          rw [ih]

/-! ## Claims C4, C5, C9 -/

/-- C4: for every document-extractor failure (missing, unreadable or
corrupt file), `extract_financial_metrics` returns exactly `(0.0, 0.0,
0.0)`; being a total function of the extractor's outcome, it raises
nothing to its caller. -/
theorem claim_C4 (err : List Char) :
    extract_financial_metrics (Except.error err) = (0, 0, 0) := rfl

/-- C5: the Value Normalizer strips every character that is not a digit or
a dot, returns 0.0 on more than one dot, trims a trailing dot, returns 0.0
on an empty remainder, and otherwise parses the remainder (`parseVal`
agrees with the spec-worded `specNormalize` on every input); sign
characters are discarded so `"-500"` normalizes like `"500"`, and
`"12,345.67"` gives 12345.67, `"UGX 1,000"` gives 1000, `"1.2.3"` gives 0,
`""` gives 0. -/
theorem claim_C5 :
    (∀ s : List Char, parseVal s = specNormalize s) ∧
    parseVal (lit "-500") = parseVal (lit "500") ∧
    parseVal (lit "12,345.67") = 12345.67 ∧
    parseVal (lit "UGX 1,000") = 1000 ∧
    parseVal (lit "1.2.3") = 0 ∧
    parseVal (lit "") = 0 := by
  refine ⟨?_, by decide, ?_, by decide, by decide, by decide⟩
  · intro s
    cases s with
    | nil => rfl
    | cons c cs =>
      simp only [parseVal, specNormalize]
      rw [if_neg (by simp : ¬(c :: cs = [])), filter_clean]
  · have h : parseVal (lit "12,345.67") = qMk 1234567 100 := by decide
    rw [h, qMk_eq_div]
    norm_num

/-- C9: the Value Normalizer is total and returns a non-negative value on
every input string — the float-parse error branch is absorbed — so a
malformed cell normalizes to 0.0 and never aborts processing. -/
theorem claim_C9 :
    (∀ s : List Char, 0 ≤ parseVal s) ∧
    parseVal (lit "N/A") = 0 ∧ parseVal (lit "12.3.4.5") = 0 :=
  ⟨parseVal_nonneg, by decide, by decide⟩

/-! ## Claims C6 and C10 -/

/-- C6: a row whose joined cell text has no date-like substring (1–4
digits, separator, 1–2 digits, separator, 2–4 digits — the embedded
`date_pattern`) leaves the Phase-B accumulators unchanged, whatever its
other content, the column state and the accumulator values. -/
theorem claim_C6 (cols : ColState) (acc : Accum) (row : List (List Char))
    (h : dateSearch (joinSpace row) = false) :
    processRow cols acc row = acc :=
  processRow_no_date h

theorem claim_C6_witness :
    dateSearch (joinSpace [lit "Header", lit "Total", lit "1000"]) = false ∧
    processRow initCols ⟨0, 0, []⟩ [lit "Header", lit "Total", lit "1000"] = ⟨0, 0, []⟩ :=
  ⟨by decide, claim_C6 initCols ⟨0, 0, []⟩ _ (by decide)⟩

/-- A date-anchored row in which every cell fails the numeric-candidate
test (the date cell carries a 23-digit reference, the other cell has 14
digits). -/
def rowGuardOnly : List (List Char) :=
  [lit "01/02/2023 Ref 123456789012345", lit "99999999999999"]

/-- A column state that identifies a credit column at index 1. -/
def colsCreditAt1 : ColState := ⟨some 1, none, none, none, none⟩

/-- C10: a date-anchored row with no numeric candidate (no cell with
positive parsed value and at most 11 raw digits) is skipped before any
classification, leaving all three accumulators unchanged even when role
columns are identified and point at positive-parsing cells. -/
theorem claim_C10 (cols : ColState) (acc : Accum) (row : List (List Char))
    (_hdate : dateSearch (joinSpace row) = true) (hrv : rowVals row = []) :
    processRow cols acc row = acc :=
  processRow_no_candidates hrv

theorem claim_C10_witness :
    dateSearch (joinSpace rowGuardOnly) = true ∧
    rowVals rowGuardOnly = [] ∧
    0 < parseVal (getCell rowGuardOnly 1) ∧
    processRow colsCreditAt1 ⟨0, 0, []⟩ rowGuardOnly = ⟨0, 0, []⟩ :=
  ⟨by decide, by decide, by decide,
    claim_C10 colsCreditAt1 ⟨0, 0, []⟩ rowGuardOnly (by decide) (by decide)⟩

set_option maxRecDepth 8000

/-! ## Helper lemmas: the balance-capture step touches only the balance list -/

theorem balanceProxy_credit (acc : Accum) (rv : List (Nat × ℚ)) :
    (balanceProxy acc rv).total_credit = acc.total_credit := by
  unfold balanceProxy
  cases rv.getLast? <;> rfl

theorem balanceProxy_debit (acc : Accum) (rv : List (Nat × ℚ)) :
    (balanceProxy acc rv).total_debit = acc.total_debit := by
  unfold balanceProxy
  cases rv.getLast? <;> rfl

theorem balanceCapture_credit (cols : ColState) (acc : Accum) (row : List (List Char))
    (rv : List (Nat × ℚ)) :
    (balanceCapture cols acc row rv).total_credit = acc.total_credit := by
  unfold balanceCapture
  cases cols.balance_idx with
  | none => exact balanceProxy_credit acc rv
  | some bi =>
    dsimp only
    split_ifs <;> first | rfl | exact balanceProxy_credit acc rv

theorem balanceCapture_debit (cols : ColState) (acc : Accum) (row : List (List Char))
    (rv : List (Nat × ℚ)) :
    (balanceCapture cols acc row rv).total_debit = acc.total_debit := by
  unfold balanceCapture
  cases cols.balance_idx with
  | none => exact balanceProxy_debit acc rv
  | some bi =>
    dsimp only
    split_ifs <;> first | rfl | exact balanceProxy_debit acc rv

/-- When the type/amount path is taken, `processRow` is the type branch
followed by the balance capture. -/
theorem processRow_type_path {cols : ColState} {acc : Accum} {row : List (List Char)}
    {ti ai : Nat} (ht : cols.type_idx = some ti) (ha : cols.amount_idx = some ai)
    (hb : ai < row.length ∧ ti < row.length)
    (hdate : dateSearch (joinSpace row) = true) (hrv : rowVals row ≠ []) :
    processRow cols acc row =
      balanceCapture cols (typeAmountBranch acc row ti ai) row (rowVals row) := by
  unfold processRow
  rw [hdate]
  simp only [not_true, if_false, Bool.not_true, Bool.false_eq_true]
  rw [if_neg hrv, ht, ha]
  dsimp only
  rw [if_pos hb]

/-! ## Helper lemmas: the type/amount classification branch -/

theorem typeAmountBranch_no_generic {acc : Accum} {row : List (List Char)} {ti ai : Nat}
    (h : containsAny (lowerStr (getCell row ti)) typeGenericKws = false) :
    typeAmountBranch acc row ti ai = acc := by
  unfold typeAmountBranch
  simp [h]

theorem typeAmountBranch_credit {acc : Accum} {row : List (List Char)} {ti ai : Nat}
    (h1 : containsAny (lowerStr (getCell row ti)) typeGenericKws = true)
    (h2 : containsAny (lowerStr (getCell row ti)) typeCreditKws = true) :
    typeAmountBranch acc row ti ai =
      { acc with total_credit := qAdd acc.total_credit (parseVal (getCell row ai)) } := by
  unfold typeAmountBranch
  simp [h1, h2]

theorem typeAmountBranch_debit {acc : Accum} {row : List (List Char)} {ti ai : Nat}
    (h1 : containsAny (lowerStr (getCell row ti)) typeGenericKws = true)
    (h2 : containsAny (lowerStr (getCell row ti)) typeCreditKws = false)
    (h3 : containsAny (lowerStr (getCell row ti)) typeDebitKws = true) :
    typeAmountBranch acc row ti ai =
      { acc with total_debit := qAdd acc.total_debit (parseVal (getCell row ai)) } := by
  unfold typeAmountBranch
  simp [h1, h2, h3]

theorem typeAmountBranch_neither {acc : Accum} {row : List (List Char)} {ti ai : Nat}
    (h1 : containsAny (lowerStr (getCell row ti)) typeGenericKws = true)
    (h2 : containsAny (lowerStr (getCell row ti)) typeCreditKws = false)
    (h3 : containsAny (lowerStr (getCell row ti)) typeDebitKws = false) :
    typeAmountBranch acc row ti ai = acc := by
  unfold typeAmountBranch
  simp [h1, h2, h3]

/-! ## Claim C3 -/

/-- C3 counterexample: in `docTypePayment` the type and amount columns are
identified, the date-anchored row's type cell is exactly `payment` — a
debit-indicating token — and the amount cell parses to 500, yet the claim's
promised `total_debit` addition does not happen: the engine leaves both
accumulators at 0 (the generic credit-ish gate fails), returning
`(0, 0, 500)` (500 is the balance proxy), not `(0, 500, 500)`. -/
theorem claim_C3_counterexample :
    phaseA (collectRows docTypePayment) = ⟨some 0, some 1, none, some 3, some 2⟩ ∧
    containsAny (lowerStr (lit "payment")) typeDebitKws = true ∧
    containsAny (lowerStr (lit "payment")) typeGenericKws = false ∧
    parseVal (lit "500") = 500 ∧
    (tableAccum (collectRows docTypePayment)).total_debit = 0 ∧
    (tableAccum (collectRows docTypePayment)).total_credit = 0 ∧
    extract_financial_metrics (Except.ok docTypePayment) = (0, 0, 500) := by
  refine ⟨by decide, by decide, by decide, by decide, by decide, by decide, by decide⟩

/-- C3 (amended): on a date-anchored row with a numeric candidate where
both a type column `ti` and an amount column `ai` were identified and are
in range, the row's contribution to the credit/debit accumulators is gated
by the generic credit-ish tokens (`credit`, `received`, `in`, `deposit`,
`successful`): when that gate fails, nothing is added, even when the type
cell holds a debit-indicating token; when it holds, a specific credit token
(`received`, `cash in`, `deposit`) adds the amount to `total_credit`, an
otherwise-present debit token (`payment`, `sent`, `cash out`, `withdraw`)
adds it to `total_debit`, and a cell with neither adds to neither. -/
theorem claim_C3_amended (cols : ColState) (acc : Accum) (row : List (List Char))
    (ti ai : Nat) (ht : cols.type_idx = some ti) (ha : cols.amount_idx = some ai)
    (hb : ai < row.length ∧ ti < row.length)
    (hdate : dateSearch (joinSpace row) = true) (hrv : rowVals row ≠ []) :
    (containsAny (lowerStr (getCell row ti)) typeGenericKws = false →
      (processRow cols acc row).total_credit = acc.total_credit ∧
      (processRow cols acc row).total_debit = acc.total_debit) ∧
    (containsAny (lowerStr (getCell row ti)) typeGenericKws = true →
     containsAny (lowerStr (getCell row ti)) typeCreditKws = true →
      (processRow cols acc row).total_credit =
        acc.total_credit + parseVal (getCell row ai) ∧
      (processRow cols acc row).total_debit = acc.total_debit) ∧
    (containsAny (lowerStr (getCell row ti)) typeGenericKws = true →
     containsAny (lowerStr (getCell row ti)) typeCreditKws = false →
     containsAny (lowerStr (getCell row ti)) typeDebitKws = true →
      (processRow cols acc row).total_debit =
        acc.total_debit + parseVal (getCell row ai) ∧
      (processRow cols acc row).total_credit = acc.total_credit) ∧
    (containsAny (lowerStr (getCell row ti)) typeGenericKws = true →
     containsAny (lowerStr (getCell row ti)) typeCreditKws = false →
     containsAny (lowerStr (getCell row ti)) typeDebitKws = false →
      (processRow cols acc row).total_credit = acc.total_credit ∧
      (processRow cols acc row).total_debit = acc.total_debit) := by
  rw [processRow_type_path ht ha hb hdate hrv]
  refine ⟨fun h1 => ?_, fun h1 h2 => ?_, fun h1 h2 h3 => ?_, fun h1 h2 h3 => ?_⟩
  · rw [balanceCapture_credit, balanceCapture_debit, typeAmountBranch_no_generic h1]
    exact ⟨rfl, rfl⟩
  · rw [balanceCapture_credit, balanceCapture_debit, typeAmountBranch_credit h1 h2]
    exact ⟨by simp [qAdd_eq], rfl⟩
  · rw [balanceCapture_credit, balanceCapture_debit, typeAmountBranch_debit h1 h2 h3]
    exact ⟨by simp [qAdd_eq], rfl⟩
  · rw [balanceCapture_credit, balanceCapture_debit,
      typeAmountBranch_neither h1 h2 h3]
    exact ⟨rfl, rfl⟩

/-- The column state Phase A infers for `docTypePayment`. -/
def colsTypeAmount : ColState := ⟨some 0, some 1, none, some 3, some 2⟩

/-- A date-anchored row whose type cell reads `payment successful`. -/
def rowPaymentSuccessful : List (List Char) :=
  [lit "01/02/2023", lit "", lit "payment successful", lit "500"]

theorem claim_C3_amended_witness :
    ((processRow colsTypeAmount ⟨0, 0, []⟩ rowPaymentSuccessful).total_debit =
      (⟨0, 0, []⟩ : Accum).total_debit + parseVal (getCell rowPaymentSuccessful 3) ∧
     (processRow colsTypeAmount ⟨0, 0, []⟩ rowPaymentSuccessful).total_credit =
      (⟨0, 0, []⟩ : Accum).total_credit) ∧
    ((processRow colsTypeAmount ⟨0, 0, []⟩
        [lit "01/02/2023", lit "", lit "payment", lit "500"]).total_credit =
      (⟨0, 0, []⟩ : Accum).total_credit ∧
     (processRow colsTypeAmount ⟨0, 0, []⟩
        [lit "01/02/2023", lit "", lit "payment", lit "500"]).total_debit =
      (⟨0, 0, []⟩ : Accum).total_debit) :=
  ⟨(claim_C3_amended colsTypeAmount ⟨0, 0, []⟩ rowPaymentSuccessful 2 3 rfl rfl
      (by decide) (by decide) (by decide)).2.2.1 (by decide) (by decide) (by decide),
   (claim_C3_amended colsTypeAmount ⟨0, 0, []⟩
      [lit "01/02/2023", lit "", lit "payment", lit "500"] 2 3 rfl rfl
      (by decide) (by decide) (by decide)).1 (by decide)⟩

/-! ## Claim C2 -/

/-- C2 counterexample: in `docBigDigits`, the credit column's cell
`123456789012` has 12 raw digits, is excluded from the numeric candidates,
and yet its full parsed value is added to `total_credit` by the identified
credit-column read (the digit-length guard only filters `row_vals`); the
document returns `(123456789012, 0, 1022023)`. -/
theorem claim_C2_counterexample :
    digitCount (lit "123456789012") = 12 ∧
    parseVal (lit "123456789012") = 123456789012 ∧
    phaseA (collectRows docBigDigits) = ⟨some 1, none, none, none, none⟩ ∧
    rowVals ((collectRows docBigDigits).getD 1 []) = [(0, 1022023)] ∧
    (tableAccum (collectRows docBigDigits)).total_credit = 123456789012 ∧
    extract_financial_metrics (Except.ok docBigDigits) = (123456789012, 0, 1022023) := by
  refine ⟨by decide, by decide, by decide, by decide, by decide, by decide⟩

/-- C2 (amended): the 12-digit guard governs the numeric-candidate list
only — a cell with 12 or more raw digits never becomes a numeric candidate
(so it is never the balance proxy), and a date-anchored row all of whose
cells fail candidacy is skipped entirely; identified credit, debit, amount
and balance column reads bypass the guard. -/
theorem claim_C2_amended :
    (∀ (row : List (List Char)) (i : Nat) (v : ℚ),
        12 ≤ digitCount (getCell row i) → (i, v) ∉ rowVals row) ∧
    (∀ (cols : ColState) (acc : Accum) (row : List (List Char)),
        rowVals row = [] → processRow cols acc row = acc) := by
  constructor
  · intro row i v hd hm
    have h := rowVals_mem hm
    omega
  · intro cols acc row h
    exact processRow_no_candidates h

theorem claim_C2_amended_witness :
    12 ≤ digitCount (getCell [lit "01/02/2023", lit "123456789012"] 1) ∧
    (1, (123456789012 : ℚ)) ∉ rowVals [lit "01/02/2023", lit "123456789012"] ∧
    rowVals rowGuardOnly = [] ∧
    processRow colsCreditAt1 ⟨0, 0, []⟩ rowGuardOnly = ⟨0, 0, []⟩ :=
  ⟨by decide,
   claim_C2_amended.1 [lit "01/02/2023", lit "123456789012"] 1 123456789012 (by decide),
   by decide,
   claim_C2_amended.2 colsCreditAt1 ⟨0, 0, []⟩ rowGuardOnly (by decide)⟩

/-! ## Claim C1 -/

/-- C1 counterexample: `docSummaryBoth` carries `Total Credit` and
`Total Debit` summary lines, no balance summary line, and a table whose
balance column yields `[100000, 150000, 200000]` (mean 150000.00); the
claim predicts `average_balance = 150000.00`, but the early return, taken
because both summaries were found, ignores the table entirely and returns
`(5000000, 3200000, 0)`. -/
theorem claim_C1_counterexample :
    extract_financial_metrics (Except.ok docSummaryBoth) = (5000000, 3200000, 0) ∧
    (tableAccum (collectRows docSummaryBoth)).balances = [100000, 150000, 200000] ∧
    round2 (qDivNat (qSum (tableAccum (collectRows docSummaryBoth)).balances)
        (tableAccum (collectRows docSummaryBoth)).balances.length) = 150000 ∧
    ((0 : ℚ) ≠ 150000) := by
  refine ⟨by decide, by decide, by decide, by decide⟩

/-- C1 (amended): when both summary credit and summary debit are found the
engine returns early with `(round2 credit, round2 debit, round2
(summary_balance or 0))` — the table, its balance column included, is
ignored; only when at least one of the two is missing does it return the
fallback combination, whose balance is the mean of the table balance list
when non-empty, else the summary balance, else 0. -/
theorem claim_C1_amended (pages : List Page) :
    (∀ c d : ℚ, summaryCredit pages = some c → summaryDebit pages = some d →
      extract_financial_metrics (Except.ok pages) =
        (round2 c, round2 d, round2 ((summaryBalance pages).getD 0))) ∧
    ((summaryCredit pages = none ∨ summaryDebit pages = none) →
      extract_financial_metrics (Except.ok pages) =
        (round2 ((summaryCredit pages).getD
            (tableAccum (collectRows pages)).total_credit),
         round2 ((summaryDebit pages).getD
            (tableAccum (collectRows pages)).total_debit),
         round2 (if (tableAccum (collectRows pages)).balances ≠ [] then
             qDivNat (qSum (tableAccum (collectRows pages)).balances)
               (tableAccum (collectRows pages)).balances.length
           else (summaryBalance pages).getD 0))) := by
  constructor
  · intro c d hc hd
    show extractCore pages = _
    unfold extractCore
    simp [hc, hd]
  · intro h
    show extractCore pages = _
    unfold extractCore
    rcases h with hc | hd
    · simp [hc]
    · simp [hd]

theorem claim_C1_witness :
    extract_financial_metrics (Except.ok docSummaryBoth) =
      (round2 5000000, round2 3200000, round2 ((summaryBalance docSummaryBoth).getD 0)) ∧
    extract_financial_metrics (Except.ok docBigDigits) =
      (round2 ((summaryCredit docBigDigits).getD
          (tableAccum (collectRows docBigDigits)).total_credit),
       round2 ((summaryDebit docBigDigits).getD
          (tableAccum (collectRows docBigDigits)).total_debit),
       round2 (if (tableAccum (collectRows docBigDigits)).balances ≠ [] then
           qDivNat (qSum (tableAccum (collectRows docBigDigits)).balances)
             (tableAccum (collectRows docBigDigits)).balances.length
         else (summaryBalance docBigDigits).getD 0)) :=
  ⟨(claim_C1_amended docSummaryBoth).1 5000000 3200000 (by decide) (by decide),
   (claim_C1_amended docBigDigits).2 (Or.inl (by decide))⟩

/-! ## Claim C8: result shape -/

theorem mem_of_getLastQ {α : Type} {l : List α} {a : α} (h : l.getLast? = some a) :
    a ∈ l := by
  induction l with
  | nil => cases h
  | cons x xs ih =>
    cases xs with
    | nil =>
      simp only [List.getLast?_singleton, Option.some.injEq] at h
      simp [h]
    | cons y ys =>
      rw [List.getLast?_cons_cons] at h
      exact List.mem_cons_of_mem _ (ih h)

/-- All accumulator components are non-negative. -/
def AccNN (acc : Accum) : Prop :=
  0 ≤ acc.total_credit ∧ 0 ≤ acc.total_debit ∧ ∀ b ∈ acc.balances, 0 ≤ b

theorem AccNN_typeAmountBranch {acc : Accum} (row : List (List Char)) (ti ai : Nat)
    (h : AccNN acc) : AccNN (typeAmountBranch acc row ti ai) := by
  unfold typeAmountBranch
  split_ifs
  · exact ⟨by rw [qAdd_eq]; exact add_nonneg h.1 (parseVal_nonneg _), h.2.1, h.2.2⟩
  · exact ⟨h.1, by rw [qAdd_eq]; exact add_nonneg h.2.1 (parseVal_nonneg _), h.2.2⟩
  · exact h
  · exact h

theorem AccNN_creditColStep (cols : ColState) {acc : Accum} (row : List (List Char))
    (h : AccNN acc) : AccNN (creditColStep cols acc row) := by
  unfold creditColStep
  cases cols.credit_idx with
  | none => exact h
  | some ci =>
    dsimp only
    split_ifs
    · exact ⟨by rw [qAdd_eq]; exact add_nonneg h.1 (parseVal_nonneg _), h.2.1, h.2.2⟩
    · exact h
    · exact h

theorem AccNN_debitColStep (cols : ColState) {acc : Accum} (row : List (List Char))
    (h : AccNN acc) : AccNN (debitColStep cols acc row) := by
  unfold debitColStep
  cases cols.debit_idx with
  | none => exact h
  | some di =>
    dsimp only
    split_ifs
    · exact ⟨h.1, by rw [qAdd_eq]; exact add_nonneg h.2.1 (parseVal_nonneg _), h.2.2⟩
    · exact h
    · exact h

theorem AccNN_creditDebitBranch (cols : ColState) {acc : Accum} (row : List (List Char))
    (h : AccNN acc) : AccNN (creditDebitBranch cols acc row) :=
  AccNN_debitColStep cols row (AccNN_creditColStep cols row h)

theorem AccNN_append {acc : Accum} {v : ℚ} (h : AccNN acc) (hv : 0 ≤ v) :
    AccNN { acc with balances := acc.balances ++ [v] } := by
  refine ⟨h.1, h.2.1, ?_⟩
  intro b hb
  rcases List.mem_append.mp hb with hb | hb
  · exact h.2.2 b hb
  · rw [List.mem_singleton.mp hb]
    exact hv

theorem AccNN_balanceProxy {acc : Accum} (row : List (List Char))
    (h : AccNN acc) : AccNN (balanceProxy acc (rowVals row)) := by
  unfold balanceProxy
  cases hl : (rowVals row).getLast? with
  | none => exact h
  | some iv =>
    have hm := mem_of_getLastQ hl
    rcases iv with ⟨i, v⟩
    exact AccNN_append h (le_of_lt (rowVals_mem hm).2.1)

theorem AccNN_balanceCapture (cols : ColState) {acc : Accum} (row : List (List Char))
    (h : AccNN acc) : AccNN (balanceCapture cols acc row (rowVals row)) := by
  unfold balanceCapture
  cases cols.balance_idx with
  | none => exact AccNN_balanceProxy row h
  | some bi =>
    dsimp only
    split_ifs
    · exact AccNN_append h (parseVal_nonneg _)
    · exact h
    · exact AccNN_balanceProxy row h

theorem AccNN_processRow (cols : ColState) {acc : Accum} (row : List (List Char))
    (h : AccNN acc) : AccNN (processRow cols acc row) := by
  unfold processRow
  split
  · exact h
  · dsimp only
    split
    · exact h
    · refine AccNN_balanceCapture cols row ?_
      split
      · split
        · exact AccNN_typeAmountBranch row _ _ h
        · exact AccNN_creditDebitBranch cols row h
      · exact AccNN_creditDebitBranch cols row h
      · exact AccNN_creditDebitBranch cols row h

theorem AccNN_fold (cols : ColState) (rows : List (List (List Char))) :
    ∀ acc : Accum, AccNN acc → AccNN (rows.foldl (processRow cols) acc) := by
  induction rows with
  | nil => intro acc h; exact h
  | cons row rest ih =>
    intro acc h
    exact ih _ (AccNN_processRow cols row h)

theorem AccNN_tableAccum (rows : List (List (List Char))) : AccNN (tableAccum rows) := by
  unfold tableAccum
  exact AccNN_fold (phaseA rows) rows ⟨0, 0, []⟩
    ⟨le_refl 0, le_refl 0, fun b hb => absurd hb (List.not_mem_nil b)⟩

theorem option_getD_nonneg {o : Option ℚ} {d : ℚ}
    (ho : ∀ q, o = some q → 0 ≤ q) (hd : 0 ≤ d) : 0 ≤ o.getD d := by
  cases o with
  | none => exact hd
  | some q => exact ho q rfl

theorem mean_nonneg {l : List ℚ} (h : ∀ b ∈ l, 0 ≤ b) :
    0 ≤ qDivNat (qSum l) l.length := by
  rw [qDivNat_eq, qSum_eq]
  exact div_nonneg (List.sum_nonneg h) (Nat.cast_nonneg _)

theorem extractCore_shape (pages : List Page) :
    0 ≤ (extractCore pages).1 ∧ 0 ≤ (extractCore pages).2.1 ∧
    0 ≤ (extractCore pages).2.2 ∧
    (∃ k : ℤ, (extractCore pages).1 = (k : ℚ) / 100) ∧
    (∃ k : ℤ, (extractCore pages).2.1 = (k : ℚ) / 100) ∧
    (∃ k : ℤ, (extractCore pages).2.2 = (k : ℚ) / 100) := by
  have hc : ∀ q, summaryCredit pages = some q → 0 ≤ q := fun q h => findByRegex_nonneg h
  have hd : ∀ q, summaryDebit pages = some q → 0 ≤ q := fun q h => findByRegex_nonneg h
  have hb : ∀ q, summaryBalance pages = some q → 0 ≤ q := fun q h => findByRegex_nonneg h
  have hacc := AccNN_tableAccum (collectRows pages)
  simp only [extractCore]
  split
  · exact ⟨round2_nonneg (option_getD_nonneg hc (le_refl 0)),
      round2_nonneg (option_getD_nonneg hd (le_refl 0)),
      round2_nonneg (option_getD_nonneg hb (le_refl 0)),
      round2_cents _, round2_cents _, round2_cents _⟩
  · refine ⟨round2_nonneg (option_getD_nonneg hc hacc.1),
      round2_nonneg (option_getD_nonneg hd hacc.2.1),
      round2_nonneg ?_, round2_cents _, round2_cents _, round2_cents _⟩
    split
    · exact mean_nonneg hacc.2.2
    · exact option_getD_nonneg hb (le_refl 0)

/-- C8: for every extractor outcome — failure, summary early return, or
table fallback — the engine returns a triple whose three components are
non-negative and are exact multiples of 1/100 (rounded to 2 decimal
places). -/
theorem claim_C8 (inp : Except (List Char) (List Page)) :
    0 ≤ (extract_financial_metrics inp).1 ∧
    0 ≤ (extract_financial_metrics inp).2.1 ∧
    0 ≤ (extract_financial_metrics inp).2.2 ∧
    (∃ k : ℤ, (extract_financial_metrics inp).1 = (k : ℚ) / 100) ∧
    (∃ k : ℤ, (extract_financial_metrics inp).2.1 = (k : ℚ) / 100) ∧
    (∃ k : ℤ, (extract_financial_metrics inp).2.2 = (k : ℚ) / 100) := by
  cases inp with
  | error e =>
    refine ⟨le_refl 0, le_refl 0, le_refl 0, ⟨0, ?_⟩, ⟨0, ?_⟩, ⟨0, ?_⟩⟩ <;>
      · show (0 : ℚ) = ((0 : ℤ) : ℚ) / 100
        norm_num
  | ok pages => exact extractCore_shape pages

/-! ## Claim C7: column-role inference -/

/-- `st2` keeps every slot assignment of `st`. -/
def Keeps (st st2 : ColState) : Prop :=
  (∀ j, st.balance_idx = some j → st2.balance_idx = some j) ∧
  (∀ j, st.amount_idx = some j → st2.amount_idx = some j) ∧
  (∀ j, st.credit_idx = some j → st2.credit_idx = some j) ∧
  (∀ j, st.debit_idx = some j → st2.debit_idx = some j) ∧
  (∀ j, st.type_idx = some j → st2.type_idx = some j)

/-- Column index of the first cell satisfying `p` in an indexed cell list. -/
def firstMatch (p : List Char → Bool) : List (Nat × List Char) → Option Nat
  | [] => none
  | jc :: rest => if p jc.2 then some jc.1 else firstMatch p rest

/-- Column index of the first cell satisfying `p` over the lowercased
cells of a row list, in scan order. -/
def firstMatchRows (p : List Char → Bool) : List (List (List Char)) → Option Nat
  | [] => none
  | row :: rest =>
    match firstMatch p (row.map lowerStr).enum with
    | some j => some j
    | none => firstMatchRows p rest

theorem scanCell_keeps (st : ColState) (j' : Nat) (c : List Char) :
    Keeps st (scanCell st j' c) := by
  unfold scanCell
  refine ⟨?_, ?_, ?_, ?_, ?_⟩ <;> intro j hj <;> split_ifs <;> simp_all

theorem Keeps_trans {s1 s2 s3 : ColState} (h1 : Keeps s1 s2) (h2 : Keeps s2 s3) :
    Keeps s1 s3 :=
  ⟨fun j hj => h2.1 j (h1.1 j hj), fun j hj => h2.2.1 j (h1.2.1 j hj),
   fun j hj => h2.2.2.1 j (h1.2.2.1 j hj), fun j hj => h2.2.2.2.1 j (h1.2.2.2.1 j hj),
   fun j hj => h2.2.2.2.2 j (h1.2.2.2.2 j hj)⟩

theorem scanCells_keeps (cells : List (Nat × List Char)) :
    ∀ st : ColState, Keeps st (scanCells st cells) := by
  induction cells with
  | nil =>
    intro st
    exact ⟨fun _ h => h, fun _ h => h, fun _ h => h, fun _ h => h, fun _ h => h⟩
  | cons jc rest ih =>
    intro st
    exact Keeps_trans (scanCell_keeps st jc.1 jc.2) (ih (scanCell st jc.1 jc.2))

theorem scanRows_keeps (rows : List (List (List Char))) :
    ∀ st : ColState, Keeps st (rows.foldl scanRow st) := by
  induction rows with
  | nil =>
    intro st
    exact ⟨fun _ h => h, fun _ h => h, fun _ h => h, fun _ h => h, fun _ h => h⟩
  | cons row rest ih =>
    intro st
    exact Keeps_trans (scanCells_keeps (row.map lowerStr).enum st) (ih (scanRow st row))

theorem scanCell_balance_eq (st : ColState) (j : Nat) (c : List Char) :
    (scanCell st j c).balance_idx =
      if st.balance_idx = none ∧ containsAny c balanceKws = true then some j
      else st.balance_idx := by
  unfold scanCell
  split_ifs <;> simp_all

theorem scanCells_balance (cells : List (Nat × List Char)) :
    ∀ st : ColState,
      (scanCells st cells).balance_idx =
        match st.balance_idx with
        | some j => some j
        | none => firstMatch (fun cell => containsAny cell balanceKws) cells := by
  induction cells with
  | nil => intro st; cases h : st.balance_idx <;> simp [scanCells, h, firstMatch]
  | cons jc rest ih =>
    intro st
    rcases jc with ⟨j0, c0⟩
    show (scanCells (scanCell st j0 c0) rest).balance_idx = _
    rw [ih]
    rw [scanCell_balance_eq]
    cases h : st.balance_idx with
    | some v => simp [h]
    | none =>
      cases hp : containsAny c0 balanceKws
      · simp [h, hp, firstMatch]
      · simp [h, hp, firstMatch]

theorem scanRows_balance (rows : List (List (List Char))) :
    ∀ st : ColState,
      (rows.foldl scanRow st).balance_idx =
        match st.balance_idx with
        | some j => some j
        | none => firstMatchRows (fun cell => containsAny cell balanceKws) rows := by
  induction rows with
  | nil => intro st; cases h : st.balance_idx <;> simp [h, firstMatchRows]
  | cons row rest ih =>
    intro st
    show (rest.foldl scanRow (scanRow st row)).balance_idx = _
    rw [ih]
    have hrow : (scanRow st row).balance_idx =
        match st.balance_idx with
        | some j => some j
        | none => firstMatch (fun cell => containsAny cell balanceKws)
            (row.map lowerStr).enum := scanCells_balance _ st
    rw [hrow]
    cases h : st.balance_idx with
    | some v => simp [firstMatchRows]
    | none =>
      cases hp : firstMatch (fun cell => containsAny cell balanceKws)
          (row.map lowerStr).enum <;> simp [firstMatchRows, hp]

theorem scanCell_type_eq (st : ColState) (j : Nat) (c : List Char) :
    (scanCell st j c).type_idx = st.type_idx ∨
      ((scanCell st j c).type_idx = some j ∧
        containsAny c typeColKws = true ∧ containsAny c typeTokenKws = true) := by
  unfold scanCell
  split_ifs <;> simp_all

theorem scanCells_type (cells : List (Nat × List Char)) :
    ∀ st : ColState,
      (scanCells st cells).type_idx = st.type_idx ∨
        ∃ jc ∈ cells, (scanCells st cells).type_idx = some jc.1 ∧
          containsAny jc.2 typeColKws = true ∧ containsAny jc.2 typeTokenKws = true := by
  induction cells with
  | nil => intro st; exact Or.inl rfl
  | cons jc0 rest ih =>
    intro st
    show (scanCells (scanCell st jc0.1 jc0.2) rest).type_idx = st.type_idx ∨ _
    rcases ih (scanCell st jc0.1 jc0.2) with h | ⟨jc, hm, h1, h2, h3⟩
    · rcases scanCell_type_eq st jc0.1 jc0.2 with h0 | ⟨h0, h4, h5⟩
      · exact Or.inl (h.trans h0)
      · exact Or.inr ⟨jc0, List.mem_cons_self jc0 rest, h.trans h0, h4, h5⟩
    · exact Or.inr ⟨jc, List.mem_cons_of_mem jc0 hm, h1, h2, h3⟩

theorem scanRows_type (rows : List (List (List Char))) :
    ∀ st : ColState,
      (rows.foldl scanRow st).type_idx = st.type_idx ∨
        ∃ row ∈ rows, ∃ jc ∈ (row.map lowerStr).enum,
          (rows.foldl scanRow st).type_idx = some jc.1 ∧
          containsAny jc.2 typeColKws = true ∧ containsAny jc.2 typeTokenKws = true := by
  induction rows with
  | nil => intro st; exact Or.inl rfl
  | cons row rest ih =>
    intro st
    show (rest.foldl scanRow (scanRow st row)).type_idx = st.type_idx ∨ _
    rcases ih (scanRow st row) with h | ⟨r, hr, jc, hm, h1, h2, h3⟩
    · rcases scanCells_type (row.map lowerStr).enum st with h0 | ⟨jc, hm, h1, h2, h3⟩
      · exact Or.inl (h.trans h0)
      · exact Or.inr ⟨row, List.mem_cons_self row rest, jc, hm, h.trans h1, h2, h3⟩
    · exact Or.inr ⟨r, List.mem_cons_of_mem row hr, jc, hm, h1, h2, h3⟩


/-!
The full extensional characterisation of the header scan.  Cells are taken
in scan order — earlier rows, then earlier columns — as one flattened
sequence; for each role a `…Fires` predicate says, of a cell and the cells
scanned before it, whether the source's elif chain assigns that role at
this cell.  Priority is visible in the predicates: each role's test
requires that no higher-priority branch fires on the same cell, and a
branch fires only while its own slot is still free.
-/

/-- The scan sequence of a document: the lowercased, column-indexed cells
of the first 20 rows, earlier rows first, earlier columns first. -/
def scanSeq (rows : List (List (List Char))) : List (Nat × List Char) :=
  (rows.take 20).flatMap (fun row => (row.map lowerStr).enum)

/-- The balance slot is still unassigned after scanning `pre`. -/
def balFree (pre : List (Nat × List Char)) : Bool :=
  pre.all (fun p => !containsAny p.2 balanceKws)

/-- The balance branch (priority 1) fires on `jc` after prefix `pre`. -/
def balFires (pre : List (Nat × List Char)) (jc : Nat × List Char) : Bool :=
  balFree pre && containsAny jc.2 balanceKws

/-- No position of `cells` satisfies the prefix-dependent predicate `P`,
with `pre` the cells already scanned. -/
def noHitFrom (P : List (Nat × List Char) → (Nat × List Char) → Bool) :
    List (Nat × List Char) → List (Nat × List Char) → Bool
  | _, [] => true
  | pre, jc :: rest => !P pre jc && noHitFrom P (pre ++ [jc]) rest

/-- The amount branch (priority 2) would take `jc` if its slot is free:
an amount keyword not consumed by the balance branch. -/
def amtTest (pre : List (Nat × List Char)) (jc : Nat × List Char) : Bool :=
  containsAny jc.2 amountKws && !balFires pre jc

/-- The amount branch fires on `jc` after prefix `pre`. -/
def amtFires (pre : List (Nat × List Char)) (jc : Nat × List Char) : Bool :=
  noHitFrom amtTest [] pre && amtTest pre jc

/-- The credit branch (priority 3) would take `jc` if its slot is free. -/
def credTest (pre : List (Nat × List Char)) (jc : Nat × List Char) : Bool :=
  eqOrContains jc.2 creditColKws && !balFires pre jc && !amtFires pre jc

/-- The credit branch fires on `jc` after prefix `pre`. -/
def credFires (pre : List (Nat × List Char)) (jc : Nat × List Char) : Bool :=
  noHitFrom credTest [] pre && credTest pre jc

/-- The debit branch (priority 4) would take `jc` if its slot is free. -/
def debTest (pre : List (Nat × List Char)) (jc : Nat × List Char) : Bool :=
  eqOrContains jc.2 debitColKws && !balFires pre jc && !amtFires pre jc &&
    !credFires pre jc

/-- The debit branch fires on `jc` after prefix `pre`. -/
def debFires (pre : List (Nat × List Char)) (jc : Nat × List Char) : Bool :=
  noHitFrom debTest [] pre && debTest pre jc

/-- The type branch (priority 5) would take `jc` if its slot is free: a
type keyword together with a credit/debit token, reached by no
higher-priority branch. -/
def typeTest (pre : List (Nat × List Char)) (jc : Nat × List Char) : Bool :=
  containsAny jc.2 typeColKws && containsAny jc.2 typeTokenKws &&
    !balFires pre jc && !amtFires pre jc && !credFires pre jc && !debFires pre jc

/-- Column index of the first position of `cells` satisfying the
prefix-dependent predicate `P`. -/
def firstHitFrom (P : List (Nat × List Char) → (Nat × List Char) → Bool) :
    List (Nat × List Char) → List (Nat × List Char) → Option Nat
  | _, [] => none
  | pre, jc :: rest => if P pre jc then some jc.1 else firstHitFrom P (pre ++ [jc]) rest

/-- The slot values the priority chain assigns on a cell sequence: each
slot holds the column index of the earliest cell (scan order) on which
that role's branch fires. -/
def predState (cells : List (Nat × List Char)) : ColState where
  credit_idx := firstHitFrom credTest [] cells
  debit_idx := firstHitFrom debTest [] cells
  balance_idx := firstHitFrom (fun _ jc => containsAny jc.2 balanceKws) [] cells
  amount_idx := firstHitFrom amtTest [] cells
  type_idx := firstHitFrom typeTest [] cells

theorem colStateEq {a b : ColState} (h1 : a.credit_idx = b.credit_idx)
    (h2 : a.debit_idx = b.debit_idx) (h3 : a.balance_idx = b.balance_idx)
    (h4 : a.amount_idx = b.amount_idx) (h5 : a.type_idx = b.type_idx) : a = b := by
  cases a
  cases b
  simp_all

/-- The header-scan step is exactly the fixed-priority chain
balance > amount > credit > debit > type, each slot written only while
unassigned, type additionally demanding a credit/debit token. -/
theorem scanCell_priority (st : ColState) (j : Nat) (c : List Char) :
    scanCell st j c =
      if st.balance_idx = none ∧ containsAny c balanceKws = true then
        { st with balance_idx := some j }
      else if st.amount_idx = none ∧ containsAny c amountKws = true then
        { st with amount_idx := some j }
      else if st.credit_idx = none ∧ eqOrContains c creditColKws = true then
        { st with credit_idx := some j }
      else if st.debit_idx = none ∧ eqOrContains c debitColKws = true then
        { st with debit_idx := some j }
      else if st.type_idx = none ∧
          (containsAny c typeColKws = true ∧ containsAny c typeTokenKws = true) then
        { st with type_idx := some j }
      else st := by
  unfold scanCell
  split_ifs <;> first | rfl | simp_all

theorem scanCell_amount_eq (st : ColState) (j : Nat) (c : List Char) :
    (scanCell st j c).amount_idx =
      if ¬(st.balance_idx = none ∧ containsAny c balanceKws = true) ∧
          st.amount_idx = none ∧ containsAny c amountKws = true
      then some j else st.amount_idx := by
  unfold scanCell
  split_ifs <;> simp_all

theorem scanCell_credit_eq (st : ColState) (j : Nat) (c : List Char) :
    (scanCell st j c).credit_idx =
      if ¬(st.balance_idx = none ∧ containsAny c balanceKws = true) ∧
          ¬(st.amount_idx = none ∧ containsAny c amountKws = true) ∧
          st.credit_idx = none ∧ eqOrContains c creditColKws = true
      then some j else st.credit_idx := by
  unfold scanCell
  split_ifs <;> simp_all

theorem scanCell_debit_eq (st : ColState) (j : Nat) (c : List Char) :
    (scanCell st j c).debit_idx =
      if ¬(st.balance_idx = none ∧ containsAny c balanceKws = true) ∧
          ¬(st.amount_idx = none ∧ containsAny c amountKws = true) ∧
          ¬(st.credit_idx = none ∧ eqOrContains c creditColKws = true) ∧
          st.debit_idx = none ∧ eqOrContains c debitColKws = true
      then some j else st.debit_idx := by
  unfold scanCell
  split_ifs <;> simp_all

theorem scanCell_typeidx_eq (st : ColState) (j : Nat) (c : List Char) :
    (scanCell st j c).type_idx =
      if ¬(st.balance_idx = none ∧ containsAny c balanceKws = true) ∧
          ¬(st.amount_idx = none ∧ containsAny c amountKws = true) ∧
          ¬(st.credit_idx = none ∧ eqOrContains c creditColKws = true) ∧
          ¬(st.debit_idx = none ∧ eqOrContains c debitColKws = true) ∧
          st.type_idx = none ∧ containsAny c typeColKws = true ∧
          containsAny c typeTokenKws = true
      then some j else st.type_idx := by
  unfold scanCell
  split_ifs <;> simp_all

theorem firstHitFrom_eq_none
    (P : List (Nat × List Char) → (Nat × List Char) → Bool) :
    ∀ (cells pre : List (Nat × List Char)),
      (firstHitFrom P pre cells = none ↔ noHitFrom P pre cells = true) := by
  intro cells
  induction cells with
  | nil => intro pre; simp [firstHitFrom, noHitFrom]
  | cons jc rest ih =>
    intro pre
    by_cases h : P pre jc = true <;>
      simp [firstHitFrom, noHitFrom, h, ih (pre ++ [jc])]

theorem noHitFrom_const (Q : (Nat × List Char) → Bool) :
    ∀ (cells pre : List (Nat × List Char)),
      noHitFrom (fun _ jc => Q jc) pre cells = cells.all (fun jc => !Q jc) := by
  intro cells
  induction cells with
  | nil => intro pre; rfl
  | cons jc rest ih =>
    intro pre
    simp [noHitFrom, ih (pre ++ [jc])]

theorem firstHitFrom_append
    (P : List (Nat × List Char) → (Nat × List Char) → Bool) :
    ∀ (cells pre : List (Nat × List Char)) (jc : Nat × List Char),
      firstHitFrom P pre (cells ++ [jc]) =
        match firstHitFrom P pre cells with
        | some x => some x
        | none => if P (pre ++ cells) jc = true then some jc.1 else none := by
  intro cells
  induction cells with
  | nil => intro pre jc; simp [firstHitFrom]
  | cons c0 rest ih =>
    intro pre jc
    by_cases h : P pre c0 = true
    · simp [firstHitFrom, h]
    · simp only [List.cons_append, firstHitFrom, h, if_false, Bool.false_eq_true,
        List.append_eq]
      rw [ih (pre ++ [c0]) jc]
      simp [List.append_assoc]

theorem predState_balance_none (pre : List (Nat × List Char)) :
    (predState pre).balance_idx = none ↔ balFree pre = true := by
  show firstHitFrom (fun _ jc => containsAny jc.2 balanceKws) [] pre = none ↔ _
  rw [firstHitFrom_eq_none, noHitFrom_const]
  exact Iff.rfl

theorem predState_amount_none (pre : List (Nat × List Char)) :
    (predState pre).amount_idx = none ↔ noHitFrom amtTest [] pre = true := by
  exact firstHitFrom_eq_none amtTest pre []

theorem predState_credit_none (pre : List (Nat × List Char)) :
    (predState pre).credit_idx = none ↔ noHitFrom credTest [] pre = true := by
  exact firstHitFrom_eq_none credTest pre []

theorem predState_debit_none (pre : List (Nat × List Char)) :
    (predState pre).debit_idx = none ↔ noHitFrom debTest [] pre = true := by
  exact firstHitFrom_eq_none debTest pre []

/-- The type branch fires on `jc` after prefix `pre`. -/
def typeFires (pre : List (Nat × List Char)) (jc : Nat × List Char) : Bool :=
  noHitFrom typeTest [] pre && typeTest pre jc

theorem predState_type_none (pre : List (Nat × List Char)) :
    (predState pre).type_idx = none ↔ noHitFrom typeTest [] pre = true := by
  exact firstHitFrom_eq_none typeTest pre []

theorem predState_append_balance (pre : List (Nat × List Char)) (j : Nat)
    (c : List Char) :
    (predState (pre ++ [(j, c)])).balance_idx =
      if balFires pre (j, c) = true then some j else (predState pre).balance_idx := by
  show firstHitFrom (fun _ jc => containsAny jc.2 balanceKws) [] (pre ++ [(j, c)]) = _
  rw [firstHitFrom_append]
  cases ha : firstHitFrom (fun _ jc => containsAny jc.2 balanceKws) [] pre with
  | none =>
    have hfree : balFree pre = true := (predState_balance_none pre).mp ha
    have ha2 : (predState pre).balance_idx = none := ha
    rw [ha2]
    simp [balFires, hfree]
  | some x =>
    have hfree : balFree pre = false := by
      cases hb : balFree pre
      · rfl
      · have h0 : (predState pre).balance_idx = none := (predState_balance_none pre).mpr hb
        have ha2 : (predState pre).balance_idx = some x := ha
        exact Option.noConfusion (h0.symm.trans ha2)
    have ha2 : (predState pre).balance_idx = some x := ha
    rw [ha2]
    simp [balFires, hfree]

theorem predState_append_amount (pre : List (Nat × List Char)) (j : Nat)
    (c : List Char) :
    (predState (pre ++ [(j, c)])).amount_idx =
      if amtFires pre (j, c) = true then some j else (predState pre).amount_idx := by
  show firstHitFrom amtTest [] (pre ++ [(j, c)]) = _
  rw [firstHitFrom_append]
  cases ha : firstHitFrom amtTest [] pre with
  | none =>
    have hfree : noHitFrom amtTest [] pre = true := (predState_amount_none pre).mp ha
    have ha2 : (predState pre).amount_idx = none := ha
    rw [ha2]
    simp [amtFires, hfree]
  | some x =>
    have hfree : noHitFrom amtTest [] pre = false := by
      cases hb : noHitFrom amtTest [] pre
      · rfl
      · have h0 : (predState pre).amount_idx = none := (predState_amount_none pre).mpr hb
        have ha2 : (predState pre).amount_idx = some x := ha
        exact Option.noConfusion (h0.symm.trans ha2)
    have ha2 : (predState pre).amount_idx = some x := ha
    rw [ha2]
    simp [amtFires, hfree]

theorem predState_append_credit (pre : List (Nat × List Char)) (j : Nat)
    (c : List Char) :
    (predState (pre ++ [(j, c)])).credit_idx =
      if credFires pre (j, c) = true then some j else (predState pre).credit_idx := by
  show firstHitFrom credTest [] (pre ++ [(j, c)]) = _
  rw [firstHitFrom_append]
  cases ha : firstHitFrom credTest [] pre with
  | none =>
    have hfree : noHitFrom credTest [] pre = true := (predState_credit_none pre).mp ha
    have ha2 : (predState pre).credit_idx = none := ha
    rw [ha2]
    simp [credFires, hfree]
  | some x =>
    have hfree : noHitFrom credTest [] pre = false := by
      cases hb : noHitFrom credTest [] pre
      · rfl
      · have h0 : (predState pre).credit_idx = none := (predState_credit_none pre).mpr hb
        have ha2 : (predState pre).credit_idx = some x := ha
        exact Option.noConfusion (h0.symm.trans ha2)
    have ha2 : (predState pre).credit_idx = some x := ha
    rw [ha2]
    simp [credFires, hfree]

theorem predState_append_debit (pre : List (Nat × List Char)) (j : Nat)
    (c : List Char) :
    (predState (pre ++ [(j, c)])).debit_idx =
      if debFires pre (j, c) = true then some j else (predState pre).debit_idx := by
  show firstHitFrom debTest [] (pre ++ [(j, c)]) = _
  rw [firstHitFrom_append]
  cases ha : firstHitFrom debTest [] pre with
  | none =>
    have hfree : noHitFrom debTest [] pre = true := (predState_debit_none pre).mp ha
    have ha2 : (predState pre).debit_idx = none := ha
    rw [ha2]
    simp [debFires, hfree]
  | some x =>
    have hfree : noHitFrom debTest [] pre = false := by
      cases hb : noHitFrom debTest [] pre
      · rfl
      · have h0 : (predState pre).debit_idx = none := (predState_debit_none pre).mpr hb
        have ha2 : (predState pre).debit_idx = some x := ha
        exact Option.noConfusion (h0.symm.trans ha2)
    have ha2 : (predState pre).debit_idx = some x := ha
    rw [ha2]
    simp [debFires, hfree]

theorem predState_append_type (pre : List (Nat × List Char)) (j : Nat)
    (c : List Char) :
    (predState (pre ++ [(j, c)])).type_idx =
      if typeFires pre (j, c) = true then some j else (predState pre).type_idx := by
  show firstHitFrom typeTest [] (pre ++ [(j, c)]) = _
  rw [firstHitFrom_append]
  cases ha : firstHitFrom typeTest [] pre with
  | none =>
    have hfree : noHitFrom typeTest [] pre = true := (predState_type_none pre).mp ha
    have ha2 : (predState pre).type_idx = none := ha
    rw [ha2]
    simp [typeFires, hfree]
  | some x =>
    have hfree : noHitFrom typeTest [] pre = false := by
      cases hb : noHitFrom typeTest [] pre
      · rfl
      · have h0 : (predState pre).type_idx = none := (predState_type_none pre).mpr hb
        have ha2 : (predState pre).type_idx = some x := ha
        exact Option.noConfusion (h0.symm.trans ha2)
    have ha2 : (predState pre).type_idx = some x := ha
    rw [ha2]
    simp [typeFires, hfree]

theorem balFires_iff (pre : List (Nat × List Char)) (j : Nat) (c : List Char) :
    balFires pre (j, c) = true ↔
      ((predState pre).balance_idx = none ∧ containsAny c balanceKws = true) := by
  rw [predState_balance_none]
  simp [balFires]

theorem amtFires_iff (pre : List (Nat × List Char)) (j : Nat) (c : List Char) :
    amtFires pre (j, c) = true ↔
      (¬((predState pre).balance_idx = none ∧ containsAny c balanceKws = true) ∧
        (predState pre).amount_idx = none ∧ containsAny c amountKws = true) := by
  have h1 := balFires_iff pre j c
  have h1' : (balFires pre (j, c) = false) ↔
      ¬((predState pre).balance_idx = none ∧ containsAny c balanceKws = true) := by
    rw [Bool.eq_false_iff]
    exact not_congr h1
  rw [predState_amount_none]
  simp only [amtFires, amtTest, Bool.and_eq_true, Bool.not_eq_true']
  rw [h1']
  tauto

theorem credFires_iff (pre : List (Nat × List Char)) (j : Nat) (c : List Char) :
    credFires pre (j, c) = true ↔
      (¬((predState pre).balance_idx = none ∧ containsAny c balanceKws = true) ∧
        ¬((predState pre).amount_idx = none ∧ containsAny c amountKws = true) ∧
        (predState pre).credit_idx = none ∧ eqOrContains c creditColKws = true) := by
  have h1' : (balFires pre (j, c) = false) ↔
      ¬((predState pre).balance_idx = none ∧ containsAny c balanceKws = true) := by
    rw [Bool.eq_false_iff]
    exact not_congr (balFires_iff pre j c)
  have h2' : (amtFires pre (j, c) = false) ↔
      ¬(¬((predState pre).balance_idx = none ∧ containsAny c balanceKws = true) ∧
        (predState pre).amount_idx = none ∧ containsAny c amountKws = true) := by
    rw [Bool.eq_false_iff]
    exact not_congr (amtFires_iff pre j c)
  rw [predState_credit_none]
  simp only [credFires, credTest, Bool.and_eq_true, Bool.not_eq_true']
  rw [h1', h2']
  tauto

theorem debFires_iff (pre : List (Nat × List Char)) (j : Nat) (c : List Char) :
    debFires pre (j, c) = true ↔
      (¬((predState pre).balance_idx = none ∧ containsAny c balanceKws = true) ∧
        ¬((predState pre).amount_idx = none ∧ containsAny c amountKws = true) ∧
        ¬((predState pre).credit_idx = none ∧ eqOrContains c creditColKws = true) ∧
        (predState pre).debit_idx = none ∧ eqOrContains c debitColKws = true) := by
  have h1' : (balFires pre (j, c) = false) ↔
      ¬((predState pre).balance_idx = none ∧ containsAny c balanceKws = true) := by
    rw [Bool.eq_false_iff]
    exact not_congr (balFires_iff pre j c)
  have h2' : (amtFires pre (j, c) = false) ↔
      ¬(¬((predState pre).balance_idx = none ∧ containsAny c balanceKws = true) ∧
        (predState pre).amount_idx = none ∧ containsAny c amountKws = true) := by
    rw [Bool.eq_false_iff]
    exact not_congr (amtFires_iff pre j c)
  have h3' : (credFires pre (j, c) = false) ↔
      ¬(¬((predState pre).balance_idx = none ∧ containsAny c balanceKws = true) ∧
        ¬((predState pre).amount_idx = none ∧ containsAny c amountKws = true) ∧
        (predState pre).credit_idx = none ∧ eqOrContains c creditColKws = true) := by
    rw [Bool.eq_false_iff]
    exact not_congr (credFires_iff pre j c)
  rw [predState_debit_none]
  simp only [debFires, debTest, Bool.and_eq_true, Bool.not_eq_true']
  rw [h1', h2', h3']
  by_cases hB1 : ((predState pre).balance_idx = none ∧ containsAny c balanceKws = true) <;>
    by_cases hB2 : ((predState pre).amount_idx = none ∧ containsAny c amountKws = true) <;>
      by_cases hB3 : ((predState pre).credit_idx = none ∧ eqOrContains c creditColKws = true) <;>
        simp [hB1, hB2, hB3]

theorem typeFires_iff (pre : List (Nat × List Char)) (j : Nat) (c : List Char) :
    typeFires pre (j, c) = true ↔
      (¬((predState pre).balance_idx = none ∧ containsAny c balanceKws = true) ∧
        ¬((predState pre).amount_idx = none ∧ containsAny c amountKws = true) ∧
        ¬((predState pre).credit_idx = none ∧ eqOrContains c creditColKws = true) ∧
        ¬((predState pre).debit_idx = none ∧ eqOrContains c debitColKws = true) ∧
        (predState pre).type_idx = none ∧ containsAny c typeColKws = true ∧
        containsAny c typeTokenKws = true) := by
  have h1' : (balFires pre (j, c) = false) ↔
      ¬((predState pre).balance_idx = none ∧ containsAny c balanceKws = true) := by
    rw [Bool.eq_false_iff]
    exact not_congr (balFires_iff pre j c)
  have h2' : (amtFires pre (j, c) = false) ↔
      ¬(¬((predState pre).balance_idx = none ∧ containsAny c balanceKws = true) ∧
        (predState pre).amount_idx = none ∧ containsAny c amountKws = true) := by
    rw [Bool.eq_false_iff]
    exact not_congr (amtFires_iff pre j c)
  have h3' : (credFires pre (j, c) = false) ↔
      ¬(¬((predState pre).balance_idx = none ∧ containsAny c balanceKws = true) ∧
        ¬((predState pre).amount_idx = none ∧ containsAny c amountKws = true) ∧
        (predState pre).credit_idx = none ∧ eqOrContains c creditColKws = true) := by
    rw [Bool.eq_false_iff]
    exact not_congr (credFires_iff pre j c)
  have h4' : (debFires pre (j, c) = false) ↔
      ¬(¬((predState pre).balance_idx = none ∧ containsAny c balanceKws = true) ∧
        ¬((predState pre).amount_idx = none ∧ containsAny c amountKws = true) ∧
        ¬((predState pre).credit_idx = none ∧ eqOrContains c creditColKws = true) ∧
        (predState pre).debit_idx = none ∧ eqOrContains c debitColKws = true) := by
    rw [Bool.eq_false_iff]
    exact not_congr (debFires_iff pre j c)
  rw [predState_type_none]
  simp only [typeFires, typeTest, Bool.and_eq_true, Bool.not_eq_true']
  rw [h1', h2', h3', h4']
  by_cases hB1 : ((predState pre).balance_idx = none ∧ containsAny c balanceKws = true) <;>
    by_cases hB2 : ((predState pre).amount_idx = none ∧ containsAny c amountKws = true) <;>
      by_cases hB3 : ((predState pre).credit_idx = none ∧ eqOrContains c creditColKws = true) <;>
        by_cases hB4 : ((predState pre).debit_idx = none ∧ eqOrContains c debitColKws = true) <;>
          simp [hB1, hB2, hB3, hB4]

/-- One scan step from a `predState`-characterised state lands on the
`predState` of the extended prefix. -/
theorem predState_step (pre : List (Nat × List Char)) (j : Nat) (c : List Char) :
    scanCell (predState pre) j c = predState (pre ++ [(j, c)]) := by
  refine colStateEq ?_ ?_ ?_ ?_ ?_
  · rw [scanCell_credit_eq, predState_append_credit]
    exact (if_congr (credFires_iff pre j c) rfl rfl).symm
  · rw [scanCell_debit_eq, predState_append_debit]
    exact (if_congr (debFires_iff pre j c) rfl rfl).symm
  · rw [scanCell_balance_eq, predState_append_balance]
    exact (if_congr (balFires_iff pre j c) rfl rfl).symm
  · rw [scanCell_amount_eq, predState_append_amount]
    exact (if_congr (amtFires_iff pre j c) rfl rfl).symm
  · rw [scanCell_typeidx_eq, predState_append_type]
    exact (if_congr (typeFires_iff pre j c) rfl rfl).symm

theorem scanCells_predState :
    ∀ (cells pre : List (Nat × List Char)),
      scanCells (predState pre) cells = predState (pre ++ cells) := by
  intro cells
  induction cells with
  | nil =>
    intro pre
    rw [List.append_nil]
    rfl
  | cons jc rest ih =>
    intro pre
    rcases jc with ⟨j, c⟩
    show scanCells (scanCell (predState pre) j c) rest = _
    rw [predState_step pre j c, ih (pre ++ [(j, c)])]
    congr 1
    simp

theorem scanCells_append (xs ys : List (Nat × List Char)) :
    ∀ st : ColState, scanCells st (xs ++ ys) = scanCells (scanCells st xs) ys := by
  induction xs with
  | nil => intro st; rfl
  | cons jc rest ih =>
    intro st
    rcases jc with ⟨j, c⟩
    show scanCells (scanCell st j c) (rest ++ ys) = _
    exact ih (scanCell st j c)

theorem foldl_scanRow_eq (rs : List (List (List Char))) :
    ∀ st : ColState,
      rs.foldl scanRow st =
        scanCells st (rs.flatMap (fun row => (row.map lowerStr).enum)) := by
  induction rs with
  | nil => intro st; rfl
  | cons row rest ih =>
    intro st
    show rest.foldl scanRow (scanRow st row) = _
    rw [ih (scanRow st row)]
    show scanCells (scanCells st (row.map lowerStr).enum) _ = _
    rw [← scanCells_append]
    rfl

/-- The full Phase-A scan is extensionally the `predState` of the scan
sequence: every slot is the earliest-firing cell of its priority-gated
predicate. -/
theorem phaseA_eq_predState (rows : List (List (List Char))) :
    phaseA rows = predState (scanSeq rows) := by
  show (rows.take 20).foldl scanRow initCols = _
  rw [foldl_scanRow_eq]
  show scanCells (predState []) _ = _
  rw [scanCells_predState]
  rfl

/-- The fixed-priority role chain, written from the spec's words: test
balance, then amount, then credit, then debit, then type, assigning the
current column index only while the tested slot is still unassigned; the
type slot additionally demands a credit/debit-indicating token. -/
def specPriorityChain (st : ColState) (j : Nat) (c : List Char) : ColState :=
  if st.balance_idx = none ∧ containsAny c balanceKws = true then
    { st with balance_idx := some j }
  else if st.amount_idx = none ∧ containsAny c amountKws = true then
    { st with amount_idx := some j }
  else if st.credit_idx = none ∧ eqOrContains c creditColKws = true then
    { st with credit_idx := some j }
  else if st.debit_idx = none ∧ eqOrContains c debitColKws = true then
    { st with debit_idx := some j }
  else if st.type_idx = none ∧
      (containsAny c typeColKws = true ∧ containsAny c typeTokenKws = true) then
    { st with type_idx := some j }
  else st

/-- C7: the Phase-A header scan obeys the claimed column-role invariant.
(a) A slot, once assigned, is kept by every further scan step: no role is
ever reassigned.  (b) Each cell is processed exactly by the fixed priority
chain balance then amount then credit then debit then type, each slot
written only while unassigned, the type slot additionally requiring a
credit/debit-indicating token.  (c) Consequently the whole scan is
extensional: each slot of the Phase-A state holds the column index of the
earliest cell, in scan order over the lowercased cells of the first 20
rows (earlier rows first, then earlier columns within a row), on which
that role's priority-gated branch fires, as recorded by `predState` over
the scan sequence.  (d) In particular the balance slot is the index of the
first cell containing a balance keyword.  (e) A type assignment only ever
comes from a cell holding both a type keyword and a credit/debit token. -/
theorem claim_C7 (rows : List (List (List Char))) :
    (∀ (st : ColState) (more : List (List (List Char))),
        Keeps st (more.foldl scanRow st)) ∧
    (∀ (st : ColState) (j : Nat) (c : List Char),
        scanCell st j c = specPriorityChain st j c) ∧
    phaseA rows = predState (scanSeq rows) ∧
    (phaseA rows).balance_idx =
      firstMatchRows (fun cell => containsAny cell balanceKws) (rows.take 20) ∧
    (∀ j, (phaseA rows).type_idx = some j →
        ∃ row ∈ rows.take 20, ∃ jc ∈ (row.map lowerStr).enum, jc.1 = j ∧
          containsAny jc.2 typeColKws = true ∧ containsAny jc.2 typeTokenKws = true) := by
  refine ⟨fun st more => scanRows_keeps more st,
    fun st j c => scanCell_priority st j c,
    phaseA_eq_predState rows, ?_, ?_⟩
  · show ((rows.take 20).foldl scanRow initCols).balance_idx = _
    rw [scanRows_balance]
    rfl
  · intro j hj
    rcases scanRows_type (rows.take 20) initCols with h | ⟨row, hr, jc, hm, h1, h2, h3⟩
    · have hj2 : ((rows.take 20).foldl scanRow initCols).type_idx = some j := hj
      rw [h] at hj2
      cases hj2
    · have hj2 : ((rows.take 20).foldl scanRow initCols).type_idx = some j := hj
      exact ⟨row, hr, jc, hm, Option.some.inj (h1.symm.trans hj2), h2, h3⟩

/-- Witness for C7 at a concrete document: the type-slot clause applied to
a statement whose third header cell is `Status (payment)`. -/
theorem claim_C7_witness :
    ∃ row ∈ (collectRows docTypePayment).take 20,
      ∃ jc ∈ (row.map lowerStr).enum, jc.1 = 2 ∧
        containsAny jc.2 typeColKws = true ∧ containsAny jc.2 typeTokenKws = true :=
  (claim_C7 (collectRows docTypePayment)).2.2.2.2 2 (by decide)
